import Mathlib

/-! JS-Code_Runner: the sandboxed interpreter, its HTTP endpoint and the container manager.

Shallow embedding of `src/runner/runner.js` and `src/api/dockerManager.js`.

The JavaScript engine (`vm.Script`, `runInContext`), `JSON.parse`, the clock, the
`docker` command line and the HTTP health probe are platform services, not code of
this repository.  They enter the model as inputs:

* a snippet is represented by its behaviour against the sandbox object (`Script`):
  a tree of sandbox accesses ending in a normal completion, an uncaught exception,
  a timeout or a syntax error;
* a value the snippet hands to the host is either plain (`JSValue`: reading it and
  converting it runs no code of the snippet) or an object that carries code of the
  snippet (`Scripted`: accessors for `code` and `message`, a conversion to string),
  which the host runs when it reads or converts the object;
* the host built-ins that the source calls through `Array.prototype` (`push`, `map`,
  `join`) and the methods of the sandbox console are state: a snippet reaches them
  through the exposed constructors and the `console` object and may replace them
  (`Script.patch`);
* a snippet is evaluated synchronously; callbacks it leaves behind (a promise reaction)
  run after `executeCode` has returned and are not part of its behaviour;
* the elapsed time and the outcome of every `docker` command are oracle values.
-/

namespace Runner

/-! ## Constants of `runner.js` -/

def PORT : Nat := 3001

def TIMEOUT_MS : Nat := 1000

/-! ## Plain JavaScript values -/

/-- Plain JavaScript values: primitives, and objects on which a property read and
`String` run no code of the snippet.  `number` stands for an integer-valued Number in
the safe range, whose `String` form is its decimal numeral.  An `object` carries its
data properties and the outcome of `String(o)`: `some s` when the built-in conversion
yields `s`, `none` when it throws a `TypeError` (a null-prototype object such as
`Object.create(null)`). -/
inductive JSValue where
  | undefined
  | null
  | bool (b : Bool)
  | number (n : Int)
  | string (s : String)
  | object (props : List (String × JSValue)) (str : Option String)

namespace JSValue

/-- An `Error`-like object as the engine creates it: a `message`, no `code`, and the
usual `Name: message` text. -/
def error (name message : String) : JSValue :=
  .object [("message", .string message)] (some (name ++ ": " ++ message))

/-- The engine's `TypeError`. -/
def typeError (message : String) : JSValue := error "TypeError" message

/-- The engine's `SyntaxError`, thrown by `new vm.Script` on text that does not parse. -/
def syntaxError (message : String) : JSValue := error "SyntaxError" message

/-- JavaScript `String(v)` on a plain value: the text, or the exception the conversion
throws. -/
def toJSString : JSValue → Except JSValue String
  | .undefined => .ok "undefined"
  | .null => .ok "null"
  | .bool true => .ok "true"
  | .bool false => .ok "false"
  | .number n => .ok (toString n)
  | .string s => .ok s
  | .object _ (some s) => .ok s
  | .object _ none => .error (typeError "Cannot convert object to primitive value")

/-- A property read `v.name` on a plain value (used by the source for `code` and
`message`): throws a `TypeError` on `null` and `undefined`, is `undefined` on the other
primitives, and is the stored value (or `undefined`) on an object. -/
def getProp (v : JSValue) (name : String) : Except JSValue JSValue :=
  match v with
  | .undefined =>
      .error (typeError ("Cannot read properties of undefined (reading '" ++ name ++ "')"))
  | .null =>
      .error (typeError ("Cannot read properties of null (reading '" ++ name ++ "')"))
  | .object props _ =>
      match props.lookup name with
      | some x => .ok x
      | none => .ok .undefined
  | _ => .ok .undefined

/-- Strict equality with a string literal: `v === s`. -/
def strictEqString (v : JSValue) (s : String) : Bool :=
  match v with
  | .string t => t == s
  | _ => false

/-- The test `v !== undefined`. -/
def isDefined : JSValue → Bool
  | .undefined => false
  | _ => true

end JSValue

/-! ## Code of the snippet that the host runs -/

/-- The four methods of the sandbox `console`. -/
inductive ConsoleMethod where
  | log
  | error
  | warn
  | info
  deriving DecidableEq, Repr

/-- How a host operation ends: with a value, with an exception, or never. -/
inductive Outcome (α : Type) where
  | ok (a : α)
  | error (e : JSValue)
  | hang

/-- An outcome that is a value or an exception. -/
def Outcome.ofExcept {α : Type} : Except JSValue α → Outcome α
  | .ok a => .ok a
  | .error e => .error e

/-- How a piece of code of the snippet ends when the host runs it. -/
inductive Ending (α : Type) where
  | returns (a : α)
  | throws (e : JSValue)
  | loops

/-- A piece of code of the snippet that the host runs (an accessor, a `toString`): the
calls it makes to the sandbox console, each with string arguments, and how it ends. -/
structure Hook (α : Type) where
  logs : List (ConsoleMethod × List String)
  ending : Ending α

/-- An object that carries code of the snippet: what reading its `code`, reading its
`message` and converting it with `String` run. -/
structure Scripted where
  code : Hook JSValue
  message : Hook JSValue
  conversion : Hook String

/-- A value the snippet hands to the host. -/
inductive Handed where
  | plain (v : JSValue)
  | scripted (o : Scripted)

/-- Whether a handed value is plain. -/
def Handed.isPlain : Handed → Bool
  | .plain _ => true
  | .scripted _ => false

/-! ## The sandbox object (`runner.js` lines 12-60) -/

/-- The in-memory collectors `output` and `errors` of one `executeCode` call. -/
structure Collectors where
  output : List String
  errors : List String
  deriving DecidableEq, Repr

/-- The expression `args.map(String)` on plain arguments: they are converted from left
to right and the first conversion that throws ends the call. -/
def stringifyAll : List JSValue → Except JSValue (List String)
  | [] => .ok []
  | v :: vs =>
      match v.toJSString with
      | .error e => .error e
      | .ok s =>
          match stringifyAll vs with
          | .error e => .error e
          | .ok ss => .ok (s :: ss)

/-- The bodies of the four arrow functions of lines 14-17 once the arguments are joined:
the text is pushed on the collector of the method and the function returns what `push`
returns, the new length of that array. -/
def pushLine (m : ConsoleMethod) (joined : String) (c : Collectors) : JSValue × Collectors :=
  match m with
  | .log => (.number (c.output.length + 1), { c with output := c.output ++ [joined] })
  | .error => (.number (c.errors.length + 1), { c with errors := c.errors ++ [joined] })
  | .warn =>
      (.number (c.output.length + 1), { c with output := c.output ++ ["[WARN] " ++ joined] })
  | .info =>
      (.number (c.output.length + 1), { c with output := c.output ++ ["[INFO] " ++ joined] })

/-- One call `console.m(...args)` with plain arguments and the built-in `push`, `map`
and `join`: `args.map(String).join(' ')` is pushed.  A conversion that throws leaves the
collectors untouched. -/
def consoleCall (m : ConsoleMethod) (args : List JSValue) (c : Collectors) :
    Except JSValue JSValue × Collectors :=
  match stringifyAll args with
  | .error e => (.error e, c)
  | .ok strs => (.ok (pushLine m (" ".intercalate strs) c).1, (pushLine m (" ".intercalate strs) c).2)

/-- The sandbox console as code of the snippet calls it with string arguments. -/
abbrev Log := ConsoleMethod → List String → Collectors → Outcome JSValue × Collectors

/-- The console with the built-in `push`, `map` and `join`, on string arguments. -/
def standardLog : Log := fun m strs c =>
  (.ok (pushLine m (" ".intercalate strs) c).1, (pushLine m (" ".intercalate strs) c).2)

/-- The console calls of a hook, in order; a call that throws or never returns ends the
hook there. -/
def runLogs (log : Log) : List (ConsoleMethod × List String) → Collectors →
    Outcome Unit × Collectors
  | [], c => (.ok (), c)
  | (m, strs) :: rest, c =>
      match log m strs c with
      | (.ok _, c1) => runLogs log rest c1
      | (.error e, c1) => (.error e, c1)
      | (.hang, c1) => (.hang, c1)

/-- The host runs a hook: its console calls, then its ending. -/
def runHook {α : Type} (log : Log) (h : Hook α) (c : Collectors) : Outcome α × Collectors :=
  match runLogs log h.logs c with
  | (.ok _, c1) =>
      match h.ending with
      | .returns a => (.ok a, c1)
      | .throws e => (.error e, c1)
      | .loops => (.hang, c1)
  | (.error e, c1) => (.error e, c1)
  | (.hang, c1) => (.hang, c1)

/-- The call `String(a)` on a handed value. -/
def convertArg (log : Log) (a : Handed) (c : Collectors) : Outcome String × Collectors :=
  match a with
  | .plain v => (Outcome.ofExcept v.toJSString, c)
  | .scripted o => runHook log o.conversion c

/-- The expression `args.map(String)` on handed values, from left to right. -/
def convertAll (log : Log) : List Handed → Collectors → Outcome (List String) × Collectors
  | [], c => (.ok [], c)
  | a :: rest, c =>
      match convertArg log a c with
      | (.ok s, c1) =>
          match convertAll log rest c1 with
          | (.ok ss, c2) => (.ok (s :: ss), c2)
          | (.error e, c2) => (.error e, c2)
          | (.hang, c2) => (.hang, c2)
      | (.error e, c1) => (.error e, c1)
      | (.hang, c1) => (.hang, c1)

/-- One call `console.m(...args)` with the built-in `push`, `map` and `join`: the
arguments are converted, which runs the conversion code of scripted arguments, and then
the joined text is pushed. -/
def consoleCallWith (m : ConsoleMethod) (args : List Handed) (c : Collectors) :
    Outcome JSValue × Collectors :=
  match convertAll standardLog args c with
  | (.ok strs, c1) =>
      (.ok (pushLine m (" ".intercalate strs) c1).1, (pushLine m (" ".intercalate strs) c1).2)
  | (.error e, c1) => (.error e, c1)
  | (.hang, c1) => (.hang, c1)

/-- The built-ins behind the console and the final joins.  `call` is what a call
`console.m(...args)` does with the current methods of the sandbox console and the
current `Array.prototype.push`, `map` and `join`; `join` is `collector.join('\n')`. -/
structure Host where
  call : ConsoleMethod → List Handed → Collectors → Outcome JSValue × Collectors
  join : List String → Outcome String

/-- The built-ins as the engine provides them. -/
def standardHost : Host where
  call := consoleCallWith
  join := fun lines => .ok ("\n".intercalate lines)

/-- The console of a host as a hook calls it. -/
def Host.log (h : Host) : Log := fun m strs c =>
  h.call m (strs.map fun s => .plain (.string s)) c

/-- Identifiers the sandbox binds to `undefined` (lines 19-31). -/
def denyList : List String :=
  ["setTimeout", "setInterval", "setImmediate", "clearTimeout", "clearInterval",
   "clearImmediate", "process", "require", "module", "exports", "__dirname",
   "__filename", "Buffer"]

/-- Host namespace objects handed to the sandbox (lines 33, 35). -/
def safeNamespaces : List String := ["Math", "JSON"]

/-- Host functions and constructors handed to the sandbox (lines 34, 36-59). -/
def safeFunctions : List String :=
  ["Date", "Number", "String", "Boolean", "Array", "Object", "RegExp", "Error",
   "TypeError", "RangeError", "SyntaxError", "Map", "Set", "WeakMap", "WeakSet",
   "Promise", "Symbol", "parseInt", "parseFloat", "isNaN", "isFinite", "encodeURI",
   "decodeURI", "encodeURIComponent", "decodeURIComponent"]

/-- The value of the sandbox property `name`, or `none` when the sandbox object has no
such property.  Of a host object only the `String` form is represented, not its own
properties (`name`, `length`, `prototype`, static methods). -/
def sandboxGet (name : String) : Option JSValue :=
  if name = "console" then some (.object [] (some "[object Object]"))
  else if name ∈ denyList then some .undefined
  else if name ∈ safeNamespaces then some (.object [] (some ("[object " ++ name ++ "]")))
  else if name ∈ safeFunctions then
    some (.object [] (some ("function " ++ name ++ "() \x7b [native code] \x7d")))
  else none

/-! ## Snippets -/

/-- The behaviour of a snippet against the sandbox.  `console`, `consoleWith` and
`global` hand the outcome of the access to the rest of the snippet, so a snippet may
catch an exception of a console call and may use the value a call returns. -/
inductive Script where
  /-- Normal completion; the plain value `v` is the value of the final expression. -/
  | ret (v : JSValue)
  /-- An uncaught `throw v` of a plain value. -/
  | throw (v : JSValue)
  /-- Synchronous code still running when the deadline elapses (`while(true){}`); the
  engine throws its timeout error. -/
  | timeout
  /-- Text rejected by `new vm.Script` with the given message. -/
  | syntaxError (message : String)
  /-- A call `console.m(...args)` with plain arguments. -/
  | console (m : ConsoleMethod) (args : List JSValue) (k : Except JSValue JSValue → Script)
  /-- A read of the global identifier `name` through the sandbox object. -/
  | global (name : String) (k : Option JSValue → Script)
  /-- Normal completion with a scripted object as the value of the final expression. -/
  | retScripted (o : Scripted)
  /-- An uncaught `throw` of a scripted object. -/
  | throwScripted (o : Scripted)
  /-- A call `console.m(...args)` whose arguments may be scripted objects. -/
  | consoleWith (m : ConsoleMethod) (args : List Handed) (k : Except JSValue JSValue → Script)
  /-- The snippet replaces built-ins of the host (such as `Array.prototype.push`, or a
  prototype the engine's errors inherit from) or methods of the sandbox console and
  goes on; from here the console and the joins behave as `host`. -/
  | patch (host : Host) (k : Script)

/-- The error the engine throws when it interrupts a script at the deadline. -/
def timeoutError : JSValue :=
  .object
    [("code", .string "ERR_SCRIPT_EXECUTION_TIMEOUT"),
     ("message", .string ("Script execution timed out after " ++ toString TIMEOUT_MS ++ "ms"))]
    (some ("Error: Script execution timed out after " ++ toString TIMEOUT_MS ++ "ms"))

/-- How the evaluation of a snippet ends: `ok` and `okScripted` with the value of the
final expression, `error` and `errorScripted` with the exception that reaches the
`catch`. -/
inductive Completion where
  | ok (v : JSValue)
  | error (e : JSValue)
  | okScripted (o : Scripted)
  | errorScripted (o : Scripted)

/-- What `new vm.Script(code)` followed by `script.runInContext(context)` leaves
behind: the collectors, the completion, the host built-ins, and, as ghost state, the
console calls the snippet made in order (without those made by hooks; a call with plain
arguments that the engine interrupts before its `push` counts as not made) and whether
the snippet replaced a built-in of the host. -/
structure RunState where
  collectors : Collectors
  calls : List (ConsoleMethod × List Handed)
  completion : Completion
  host : Host
  patched : Bool

/-- Evaluation of a snippet from a given host.  A console call that never returns is
interrupted by the engine at the deadline. -/
def runFrom : Script → Host → Bool → Collectors → List (ConsoleMethod × List Handed) →
    RunState
  | .ret v, h, p, c, t => ⟨c, t, .ok v, h, p⟩
  | .throw v, h, p, c, t => ⟨c, t, .error v, h, p⟩
  | .timeout, h, p, c, t => ⟨c, t, .error timeoutError, h, p⟩
  | .syntaxError msg, h, p, c, t => ⟨c, t, .error (JSValue.syntaxError msg), h, p⟩
  | .retScripted o, h, p, c, t => ⟨c, t, .okScripted o, h, p⟩
  | .throwScripted o, h, p, c, t => ⟨c, t, .errorScripted o, h, p⟩
  | .console m args k, h, p, c, t =>
      match h.call m (args.map .plain) c with
      | (.ok v, c1) => runFrom (k (.ok v)) h p c1 (t ++ [(m, args.map .plain)])
      | (.error e, c1) => runFrom (k (.error e)) h p c1 (t ++ [(m, args.map .plain)])
      | (.hang, c1) => ⟨c1, t ++ [(m, args.map .plain)], .error timeoutError, h, p⟩
  | .consoleWith m args k, h, p, c, t =>
      match h.call m args c with
      | (.ok v, c1) => runFrom (k (.ok v)) h p c1 (t ++ [(m, args)])
      | (.error e, c1) => runFrom (k (.error e)) h p c1 (t ++ [(m, args)])
      | (.hang, c1) => ⟨c1, t ++ [(m, args)], .error timeoutError, h, p⟩
  | .global name k, h, p, c, t => runFrom (k (sandboxGet name)) h p c t
  | .patch host k, _, _, c, t => runFrom k host true c t

/-- Evaluation of a snippet in a fresh context made from the sandbox. -/
def run (script : Script) (c : Collectors) (t : List (ConsoleMethod × List Handed)) :
    RunState :=
  runFrom script standardHost false c t

/-! ## `executeCode` (lines 7-95) -/

/-- The record `executeCode` returns.  `error` is whatever the `catch` assigned, so it
may be any value; JSON serialisation drops the member when it is `undefined`.
`executionTimeMs` is kept in hundredths of a millisecond. -/
structure ExecutionResult where
  output : String
  errors : Option String
  result : Option String
  error : JSValue
  executionTimeMs : Nat

/-- The timeout message of line 79. -/
def timeoutMessage : String := "Execution timed out (limit: " ++ toString TIMEOUT_MS ++ "ms)"

/-- The `catch` block of lines 77-83 on a plain value: the value assigned to `error`, or
the exception the block itself throws. -/
def catchBlock (err : JSValue) : Except JSValue JSValue :=
  match err.getProp "code" with
  | .error e => .error e
  | .ok code =>
      if code.strictEqString "ERR_SCRIPT_EXECUTION_TIMEOUT" then .ok (.string timeoutMessage)
      else err.getProp "message"

/-- The `catch` block of lines 77-83 on a scripted object: `err.code` runs its `code`
hook and, unless the value read is the timeout code, `err.message` runs its `message`
hook.  No deadline covers these reads. -/
def catchScripted (log : Log) (o : Scripted) (c : Collectors) : Outcome JSValue × Collectors :=
  match runHook log o.code c with
  | (.ok code, c1) =>
      if code.strictEqString "ERR_SCRIPT_EXECUTION_TIMEOUT" then
        (.ok (.string timeoutMessage), c1)
      else runHook log o.message c1
  | (.error e, c1) => (.error e, c1)
  | (.hang, c1) => (.hang, c1)

/-- Line 91 on a plain value: `result !== undefined ? String(result) : null`. -/
def stringifyResult (result : JSValue) : Except JSValue (Option String) :=
  if result.isDefined then
    match result.toJSString with
    | .ok s => .ok (some s)
    | .error e => .error e
  else .ok none

/-- Line 91 on a handed value.  A scripted object is not `undefined`, so `String` runs
its conversion hook; the lines that hook logs come after `output.join` of line 89 and
are lost. -/
def stringifyHanded (log : Log) (result : Handed) (c : Collectors) : Outcome (Option String) :=
  match result with
  | .plain v => Outcome.ofExcept (stringifyResult v)
  | .scripted o =>
      match (runHook log o.conversion c).1 with
      | .ok s => .ok (some s)
      | .error e => .error e
      | .hang => .hang

/-- The double nearest to a rational number (round to nearest, ties to even), for
positive numbers in the normal range; `0` for the others. -/
def nearestDouble (x : ℚ) : ℚ :=
  if x ≤ 0 then 0
  else
    let e : ℤ := Int.log 2 x
    let ulp : ℚ := 2 ^ (e - 52)
    let q : ℚ := x / ulp
    let f : ℤ := ⌊q⌋
    let n : ℤ :=
      if q - f < 1 / 2 then f
      else if 1 / 2 < q - f then f + 1
      else if f % 2 = 0 then f else f + 1
    n * ulp

/-- Lines 86 and 93 in double arithmetic: `Number(ns) / 1_000_000`, times 100, then
`Math.round`, which rounds half up.  The result is the number of hundredths of a
millisecond; the member of the record is the double nearest to that many hundredths. -/
def roundTime (elapsedNs : Nat) : Nat :=
  let ms := nearestDouble (nearestDouble elapsedNs / 1000000)
  let scaled := nearestDouble (ms * 100)
  ⌊scaled + 1 / 2⌋.toNat

/-- Lines 65-83: the values of `result` and `error` after the `try` statement, with the
collectors, or the way the `catch` block fails. -/
def tryCatch (st : RunState) : Outcome (Handed × JSValue) × Collectors :=
  match st.completion with
  | .ok v => (.ok (.plain v, .null), st.collectors)
  | .okScripted o => (.ok (.scripted o, .null), st.collectors)
  | .error err =>
      match catchBlock err with
      | .ok msg => (.ok (.plain .null, msg), st.collectors)
      | .error e => (.error e, st.collectors)
  | .errorScripted o =>
      match catchScripted st.host.log o st.collectors with
      | (.ok msg, c1) => (.ok (.plain .null, msg), c1)
      | (.error e, c1) => (.error e, c1)
      | (.hang, c1) => (.hang, c1)

/-- Lines 88-94: the members of the returned record, evaluated in source order. -/
def buildResult (host : Host) (c : Collectors) (result : Handed) (error : JSValue)
    (elapsedNs : Nat) : Outcome ExecutionResult :=
  match host.join c.output with
  | .error e => .error e
  | .hang => .hang
  | .ok output =>
      match (if c.errors.length > 0 then
          (match host.join c.errors with
            | .ok s => Outcome.ok (some s)
            | .error e => .error e
            | .hang => .hang)
        else .ok none) with
      | .error e => .error e
      | .hang => .hang
      | .ok errors =>
          match stringifyHanded host.log result c with
          | .error e => .error e
          | .hang => .hang
          | .ok res =>
              .ok
                { output := output
                  errors := errors
                  result := res
                  error := error
                  executionTimeMs := roundTime elapsedNs }

/-- The function `executeCode`, called in a process whose built-ins no earlier snippet
replaced.  `script` is the behaviour of the snippet and `elapsedNs` the clock difference
measured around the evaluation.  The outcome is the returned record, the exception that
escapes the function, or `hang` when the call never returns. -/
def executeCode (script : Script) (elapsedNs : Nat) : Outcome ExecutionResult :=
  let st := run script ⟨[], []⟩ []
  match tryCatch st with
  | (.error e, _) => .error e
  | (.hang, _) => .hang
  | (.ok (result, error), c) => buildResult st.host c result error elapsedNs

/-! ## The HTTP endpoint of the runner (lines 97-138) -/

/-- Values produced by `JSON.parse`.  Numbers are restricted to integers; the handler
rejects every number whatever its value. -/
inductive Json where
  | null
  | bool (b : Bool)
  | num (n : Int)
  | str (s : String)
  | arr (items : List Json)
  | obj (members : List (String × Json))

/-- A request as the handler sees it.  `body` is the outcome of `JSON.parse` on the
accumulated body text: `none` when the text is not valid JSON. -/
structure Request where
  method : String
  url : String
  body : Option Json

/-- The JSON document written by `res.end`. -/
inductive ResponseBody where
  /-- The document `{status: 'ok'}`. -/
  | statusOk
  /-- The document `{error: message}`. -/
  | message (error : String)
  /-- The serialised `ExecutionResult`; serialisation does not fail on the values of the
  model. -/
  | execution (r : ExecutionResult)

/-- Status code and body of a response. -/
structure Response where
  status : Nat
  body : ResponseBody

/-- Whether the serialised record carries an `error` member with a non-null value:
`JSON.stringify` omits a member whose value is `undefined`. -/
def ExecutionResult.errorPopulated (r : ExecutionResult) : Bool :=
  match r.error with
  | .undefined => false
  | .null => false
  | _ => true

/-- The destructuring `const { code } = parsed` of line 115: it throws on `null`, reads
the member `code` of an object (the last one when the text repeats the key) and is
`undefined` (`none`) on every other value. -/
def destructureCode : Json → Except Unit (Option Json)
  | .null => .error ()
  | .obj members => .ok (members.reverse.lookup "code")
  | _ => .ok none

/-- The guard of line 117 negated: `code` is truthy and `typeof code === 'string'`.
Gives the snippet text when the guard lets the request through. -/
def validCode : Option Json → Option String
  | some (.str s) => if s = "" then none else some s
  | _ => none

/-- The handler of `POST /execute` (lines 113-131).  `vm` is the engine: the behaviour
of each snippet text.  The answer is `none` when `executeCode` never returns, so that no
response is written. -/
def handleExecute (vm : String → Script) (elapsedNs : Nat) (body : Option Json) :
    Option Response :=
  match body with
  | none => some ⟨400, .message "Invalid JSON body"⟩
  | some parsed =>
      match destructureCode parsed with
      | .error _ => some ⟨400, .message "Invalid JSON body"⟩
      | .ok code =>
          match validCode code with
          | none => some ⟨400, .message "Code is required and must be a string"⟩
          | some text =>
              match executeCode (vm text) elapsedNs with
              | .ok r => some ⟨200, .execution r⟩
              | .error _ => some ⟨400, .message "Invalid JSON body"⟩
              | .hang => none

/-- The request listener of `http.createServer` (lines 97-138). -/
def handleRequest (vm : String → Script) (elapsedNs : Nat) (req : Request) :
    Option Response :=
  if req.method = "GET" ∧ req.url = "/health" then some ⟨200, .statusOk⟩
  else if req.method = "POST" ∧ req.url = "/execute" then handleExecute vm elapsedNs req.body
  else some ⟨404, .message "Not found"⟩

/-! ## Snippets named in the specification -/

/-- The snippet `console.log(s)` for a string literal with value `s`: one call, whose
outcome is the completion of the snippet. -/
def consoleLogSnippet (s : String) : Script :=
  .console .log [.string s] fun r =>
    match r with
    | .ok v => .ret v
    | .error e => .throw e

/-- A snippet whose final expression is the call `console.m(...args)`. -/
def consoleSnippet (m : ConsoleMethod) (args : List JSValue) : Script :=
  .console m args fun r =>
    match r with
    | .ok v => .ret v
    | .error e => .throw e

/-- The snippet consisting of the bare identifier `name`; `unbound` is what the
context does with an identifier the sandbox object does not define. -/
def identifierSnippet (name : String) (unbound : Script) : Script :=
  .global name fun r =>
    match r with
    | some v => .ret v
    | none => unbound

/-- The snippet `name.prop`. -/
def memberSnippet (name prop : String) (unbound : Script) : Script :=
  .global name fun r =>
    match r with
    | some v =>
        match v.getProp prop with
        | .ok x => .ret x
        | .error e => .throw e
    | none => unbound

/-- A value thrown by a snippet that carries the engine's timeout code and a message of
its own. -/
def forgedTimeout : JSValue :=
  .object [("code", .string "ERR_SCRIPT_EXECUTION_TIMEOUT"), ("message", .string "boom")]
    (some "[object Object]")

/-- The snippet that makes the console calls of `calls` one after the other, each in a
`try` with an empty `catch` so that it goes on after a call that throws, and then
completes as `last`. -/
def callsSnippet (calls : List (ConsoleMethod × List JSValue)) (last : Script) : Script :=
  match calls with
  | [] => last
  | (m, args) :: rest => .console m args fun _ => callsSnippet rest last

/-- Three `console.log` calls, the second with a null-prototype object: the snippet
`console.log('a'); try { console.log(Object.create(null)) } catch (e) {}
console.log('b'); void 0`. -/
def threeLogs : Script :=
  callsSnippet
    [(.log, [.string "a"]), (.log, [.object [] none]), (.log, [.string "b"])]
    (.ret .undefined)

/-- The exception of a reference to an identifier that nothing defines. -/
def referenceError (name : String) : JSValue :=
  JSValue.error "ReferenceError" (name ++ " is not defined")

/-- An engine that knows two snippets: `throw null`, and `throw 42` for any other text. -/
def throwingVm (text : String) : Script :=
  if text = "throw null" then .throw .null else .throw (.number 42)

/-! ## Snippets that run code of their own in the host -/

/-- An object whose `code` accessor throws the string `x`: the snippet
`throw { get code() { throw 'x' } }`. -/
def throwingAccessor : Scripted where
  code := ⟨[], .throws (.string "x")⟩
  message := ⟨[], .returns .undefined⟩
  conversion := ⟨[], .returns "[object Object]"⟩

/-- An object whose `toString` never returns: the snippet
`({ toString() { while (true) {} } })`. -/
def loopingConversion : Scripted where
  code := ⟨[], .returns .undefined⟩
  message := ⟨[], .returns .undefined⟩
  conversion := ⟨[], .loops⟩

/-- An object whose `toString` logs `x` and returns `s`: the object
`{ toString() { console.log('x'); return 's' } }`. -/
def loggingConversion : Scripted where
  code := ⟨[], .returns .undefined⟩
  message := ⟨[], .returns .undefined⟩
  conversion := ⟨[(.log, ["x"])], .returns "s"⟩

/-- The built-ins after `Array.prototype.push = function () { return 0 }`: a console call
still converts its arguments, adds nothing to a collector and returns 0. -/
def deafPushHost : Host where
  call := fun _ args c =>
    match convertAll standardLog args c with
    | (.ok _, c1) => (.ok (.number 0), c1)
    | (.error e, c1) => (.error e, c1)
    | (.hang, c1) => (.hang, c1)
  join := fun lines => .ok ("\n".intercalate lines)

/-- The built-ins after `Array.prototype.join = function () { throw 'j' }`: every join
throws. -/
def throwingJoinHost : Host where
  call := fun _ _ c => (.error (.string "j"), c)
  join := fun _ => .error (.string "j")

/-- The snippet `Array.prototype.join = function () { throw 'j' }; while (true) {}`. -/
def throwingJoinSnippet : Script :=
  .patch throwingJoinHost .timeout

/-- The snippet `Array.prototype.push = function () { return 0 }; console.log('a');
void 0`. -/
def deafPushSnippet : Script :=
  .patch deafPushHost (.console .log [.string "a"] fun _ => .ret .undefined)

/-- The snippet `console.log(o); void 0` for the object `loggingConversion`. -/
def nestedLogSnippet : Script :=
  .consoleWith .log [.scripted loggingConversion] fun _ => .ret .undefined

/-- The snippet `console.warn('a', 1); console.info(true); console.error('e', null);
console.log(); void 0`. -/
def fourMethods : Script :=
  callsSnippet
    [(.warn, [.string "a", .number 1]), (.info, [.bool true]),
     (.error, [.string "e", .null]), (.log, [])]
    (.ret .undefined)

/-! ## The console channels as the specification words them -/

/-- The plain value behind a handed value. -/
def Handed.value? : Handed → Option JSValue
  | .plain v => some v
  | .scripted _ => none

/-- Whether a completion carries a plain value. -/
def Completion.isPlain : Completion → Bool
  | .ok _ => true
  | .error _ => true
  | .okScripted _ => false
  | .errorScripted _ => false

/-- Whether every argument of every call is plain. -/
def plainArguments (calls : List (ConsoleMethod × List Handed)) : Bool :=
  calls.all fun call => call.2.all Handed.isPlain

/-- The line of a call given its joined arguments: `[WARN] ` in front for `warn`,
`[INFO] ` for `info`, nothing for `log` and `error`. -/
def ConsoleMethod.line (m : ConsoleMethod) (joined : String) : String :=
  match m with
  | .log => joined
  | .error => joined
  | .warn => "[WARN] " ++ joined
  | .info => "[INFO] " ++ joined

/-- The line of a call with plain arguments: each argument converted with `String`, the
texts joined by a single space, the prefix of the method in front.  There is no line
when `String` cannot convert an argument or an argument is scripted. -/
def callLine (call : ConsoleMethod × List Handed) : Option String :=
  if call.2.all Handed.isPlain then
    match stringifyAll (call.2.filterMap Handed.value?) with
    | .ok strs => some (call.1.line (" ".intercalate strs))
    | .error _ => none
  else none

/-- The lines of the `log`, `warn` and `info` calls of a call sequence, in order. -/
def outputLines (calls : List (ConsoleMethod × List Handed)) : List String :=
  calls.filterMap fun call => if call.1 = .error then none else callLine call

/-- The lines of the `error` calls of a call sequence, in order. -/
def errorLines (calls : List (ConsoleMethod × List Handed)) : List String :=
  calls.filterMap fun call => if call.1 = .error then callLine call else none

end Runner

namespace Api

/-! ## Constants of `dockerManager.js` -/

def CONTAINER_NAME : String := "js-code-runner"

def IMAGE_NAME : String := "js-code-runner:latest"

def CONTAINER_PORT : Nat := 3001

def MEMORY_LIMIT : String := "256m"

/-! ## The container runtime -/

/-- The shell commands `DockerManager` passes to `execCommand`. -/
inductive DockerCmd where
  | build
  | psAll
  | psRunning
  | inspect
  | rm
  | run
  | stop
  deriving DecidableEq, Repr

/-- The command line of each command, as the source writes it. -/
def DockerCmd.commandLine : DockerCmd → String
  | .build => "docker build -t " ++ IMAGE_NAME ++ " ../runner"
  | .psAll =>
      "docker ps -a --filter \"name=" ++ CONTAINER_NAME ++ "\" --format \"\x7b\x7b.Names\x7d\x7d\""
  | .psRunning =>
      "docker ps --filter \"name=" ++ CONTAINER_NAME ++
        "\" --filter \"status=running\" --format \"\x7b\x7b.Names\x7d\x7d\""
  | .inspect =>
      "docker inspect -f " ++
        "\x27\x7b\x7brange .NetworkSettings.Networks\x7d\x7d\x7b\x7b.IPAddress\x7d\x7d\x7b\x7bend\x7d\x7d\x27 " ++
        CONTAINER_NAME
  | .rm => "docker rm " ++ CONTAINER_NAME
  | .run =>
      "docker run -d --name " ++ CONTAINER_NAME ++ " --memory=" ++ MEMORY_LIMIT ++ " -p " ++
        toString CONTAINER_PORT ++ ":" ++ toString CONTAINER_PORT ++ " " ++ IMAGE_NAME
  | .stop => "docker stop " ++ CONTAINER_NAME

/-- The container runtime as an oracle over its own state `σ`.  `exec c s` is the
outcome of running the command in state `s`: `ok out` with the trimmed standard output
when the command succeeds, `error msg` with `stderr || error.message` when it fails,
and the state afterwards.  `wait ms s` is the state after `ms` milliseconds pass. -/
structure Runtime (σ : Type) where
  exec : DockerCmd → σ → Except String String × σ
  wait : Nat → σ → σ

/-- The runtime state together with the commands issued so far (ghost state). -/
structure World (σ : Type) where
  state : σ
  issued : List DockerCmd

/-- The fields of a `DockerManager` instance. -/
structure DockerManager where
  containerRunning : Bool
  containerHost : Option String
  deriving DecidableEq, Repr

/-- The constructor (lines 10-13). -/
def DockerManager.new : DockerManager := ⟨false, none⟩

variable {σ : Type}

/-- The method `execCommand` (lines 16-26). -/
def execCommand (rt : Runtime σ) (c : DockerCmd) (w : World σ) :
    Except String String × World σ :=
  ((rt.exec c w.state).1, ⟨(rt.exec c w.state).2, w.issued ++ [c]⟩)

/-- The method `containerExists` (lines 40-49). -/
def containerExists (rt : Runtime σ) (w : World σ) : Bool × World σ :=
  match execCommand rt .psAll w with
  | (.ok out, w1) => (out == CONTAINER_NAME, w1)
  | (.error _, w1) => (false, w1)

/-- The method `isContainerRunning` (lines 52-61). -/
def isContainerRunning (rt : Runtime σ) (w : World σ) : Bool × World σ :=
  match execCommand rt .psRunning w with
  | (.ok out, w1) => (out == CONTAINER_NAME, w1)
  | (.error _, w1) => (false, w1)

/-- The method `getContainerIP` (lines 64-73). -/
def getContainerIP (rt : Runtime σ) (w : World σ) : Option String × World σ :=
  match execCommand rt .inspect w with
  | (.ok ip, w1) => (some ip, w1)
  | (.error _, w1) => (none, w1)

/-- The `try` block of `startContainer` (lines 92-105). -/
def startNewContainer (rt : Runtime σ) (m : DockerManager) (w : World σ) :
    Except String Unit × DockerManager × World σ :=
  match execCommand rt .run w with
  | (.error e, w1) => (.error ("Failed to start container: " ++ e), m, w1)
  | (.ok _, w1) =>
      let w2 : World σ := ⟨rt.wait 1000 w1.state, w1.issued⟩
      let r := getContainerIP rt w2
      (.ok (), ⟨true, r.1⟩, r.2)

/-- The method `startContainer` (lines 76-106): the outcome of the call, the fields of
the manager afterwards and the world afterwards. -/
def startContainer (rt : Runtime σ) (m : DockerManager) (w : World σ) :
    Except String Unit × DockerManager × World σ :=
  let e := containerExists rt w
  if e.1 then
    let r := isContainerRunning rt e.2
    if r.1 then
      let ip := getContainerIP rt r.2
      (.ok (), ⟨true, ip.1⟩, ip.2)
    else
      match execCommand rt .rm r.2 with
      | (.error err, w3) => (.error err, m, w3)
      | (.ok _, w3) => startNewContainer rt m w3
  else startNewContainer rt m e.2

/-- The loop of `waitForHealthy` with `remaining = maxAttempts - i` iterations left.
`probe i` is the outcome of the `i`-th call of `healthCheck`.  Gives the number of
probes performed and the outcome: `ok true`, or the thrown error's message. -/
def waitLoop (probe : Nat → Bool) : Nat → Nat → Nat × Except String Bool
  | 0, i => (i, .error "Container failed to become healthy")
  | remaining + 1, i =>
      if probe i then (i + 1, .ok true) else waitLoop probe remaining (i + 1)

/-- The method `waitForHealthy` (lines 148-158). -/
def waitForHealthy (maxAttempts : Nat) (probe : Nat → Bool) : Nat × Except String Bool :=
  waitLoop probe maxAttempts 0

/-! ## What one call of `startContainer` observes and issues -/

/-- What `containerExists()` answers at the start of `startContainer`. -/
def observedExists (rt : Runtime σ) (w : World σ) : Bool :=
  (containerExists rt w).1

/-- What `isContainerRunning()` answers when asked after `containerExists()`. -/
def observedRunning (rt : Runtime σ) (w : World σ) : Bool :=
  (isContainerRunning rt (containerExists rt w).2).1

/-- The world after the two queries. -/
def worldAfterQueries (rt : Runtime σ) (w : World σ) : World σ :=
  (isContainerRunning rt (containerExists rt w).2).2

/-- The outcome of `docker rm` when issued after the two queries. -/
def removal (rt : Runtime σ) (w : World σ) : Except String String :=
  (rt.exec .rm (worldAfterQueries rt w).state).1

/-- The commands one call of `startContainer` adds to the commands issued before it. -/
def newCommands (rt : Runtime σ) (m : DockerManager) (w : World σ) : List DockerCmd :=
  (startContainer rt m w).2.2.issued.drop w.issued.length

/-- The address `getContainerIP()` resolves in runtime state `s`. -/
def inspectedAddress (rt : Runtime σ) (s : σ) : Option String :=
  match (rt.exec .inspect s).1 with
  | .ok ip => some ip
  | .error _ => none

/-! ## Sample runtimes -/

/-- The three states of the named container. -/
inductive ContainerState where
  | absent
  | stopped
  | running
  deriving DecidableEq, Repr

/-- A well-behaved runtime: removal needs a stopped container, creation an absent one,
and a created container runs at a fixed address. -/
def dockerRuntime : Runtime ContainerState where
  exec := fun c s =>
    match c, s with
    | .build, s => (.ok "", s)
    | .psAll, .absent => (.ok "", .absent)
    | .psAll, s => (.ok CONTAINER_NAME, s)
    | .psRunning, .running => (.ok CONTAINER_NAME, .running)
    | .psRunning, s => (.ok "", s)
    | .inspect, .absent => (.error "Error: No such object: js-code-runner", .absent)
    | .inspect, .stopped => (.ok "", .stopped)
    | .inspect, .running => (.ok "172.17.0.2", .running)
    | .rm, .stopped => (.ok CONTAINER_NAME, .absent)
    | .rm, .running => (.error "Error response from daemon: container is running", .running)
    | .rm, .absent => (.error "Error: No such container: js-code-runner", .absent)
    | .run, .absent => (.ok "4f1c2d", .running)
    | .run, s => (.error "Error response from daemon: Conflict", s)
    | .stop, .running => (.ok CONTAINER_NAME, .stopped)
    | .stop, .stopped => (.ok CONTAINER_NAME, .stopped)
    | .stop, .absent => (.error "Error: No such container: js-code-runner", .absent)
  wait := fun _ s => s

/-- A runtime whose stopped container cannot be removed: every `docker rm` fails. -/
def lockedRuntime : Runtime ContainerState where
  exec := fun c s =>
    match c with
    | .rm => (.error "Error response from daemon: removal is already in progress", s)
    | c => dockerRuntime.exec c s
  wait := fun _ s => s

end Api

/-! # Properties -/

namespace Runner

/-! ## Auxiliary facts -/

theorem timeoutMessage_eq : timeoutMessage = "Execution timed out (limit: 1000ms)" := by
  decide

theorem sandboxGet_denied {name : String} (h : name ∈ denyList) :
    sandboxGet name = some .undefined := by
  simp only [denyList, List.mem_cons, List.mem_singleton, List.not_mem_nil, or_false] at h
  rcases h with rfl | rfl | rfl | rfl | rfl | rfl | rfl | rfl | rfl | rfl | rfl | rfl | rfl <;> rfl

theorem convertAll_plain (log : Log) (args : List JSValue) (c : Collectors) :
    convertAll log (args.map .plain) c = (Outcome.ofExcept (stringifyAll args), c) := by
  induction args with
  | nil => rfl
  | cons v vs ih =>
      simp only [List.map_cons, convertAll, convertArg, stringifyAll]
      cases hv : v.toJSString with
      | error e => simp [Outcome.ofExcept]
      | ok s =>
          simp only [Outcome.ofExcept, ih]
          cases hs : stringifyAll vs with
          | error e => simp [Outcome.ofExcept]
          | ok ss => simp [Outcome.ofExcept]

theorem consoleCallWith_plain (m : ConsoleMethod) (args : List JSValue) (c : Collectors) :
    consoleCallWith m (args.map .plain) c =
      (Outcome.ofExcept (consoleCall m args c).1, (consoleCall m args c).2) := by
  simp only [consoleCallWith, convertAll_plain, consoleCall]
  cases hs : stringifyAll args with
  | error e => simp [Outcome.ofExcept]
  | ok strs => simp [Outcome.ofExcept]

theorem runFrom_console (m : ConsoleMethod) (args : List JSValue)
    (k : Except JSValue JSValue → Script) (p : Bool) (c : Collectors)
    (t : List (ConsoleMethod × List Handed)) :
    runFrom (.console m args k) standardHost p c t =
      runFrom (k (consoleCall m args c).1) standardHost p (consoleCall m args c).2
        (t ++ [(m, args.map .plain)]) := by
  have h : standardHost.call m (args.map .plain) c =
      (Outcome.ofExcept (consoleCall m args c).1, (consoleCall m args c).2) :=
    consoleCallWith_plain m args c
  simp only [runFrom, h]
  generalize consoleCall m args c = x
  obtain ⟨r, c1⟩ := x
  cases r <;> rfl

theorem buildResult_ok {host : Host} {c : Collectors} {result : Handed} {error : JSValue}
    {elapsedNs : Nat} {r : ExecutionResult}
    (h : buildResult host c result error elapsedNs = .ok r) :
    host.join c.output = .ok r.output ∧
      (if c.errors.length > 0 then
          (∃ s, host.join c.errors = .ok s ∧ r.errors = some s)
        else r.errors = none) ∧
      stringifyHanded host.log result c = .ok r.result ∧ r.error = error := by
  simp only [buildResult] at h
  cases hj : host.join c.output with
  | error e => simp [hj] at h
  | hang => simp [hj] at h
  | ok out =>
      simp only [hj] at h
      by_cases hl : c.errors.length > 0
      · simp only [hl, if_true] at h ⊢
        cases hje : host.join c.errors with
        | error e => simp [hje] at h
        | hang => simp [hje] at h
        | ok s =>
            simp only [hje] at h
            cases hr : stringifyHanded host.log result c with
            | error e => simp [hr] at h
            | hang => simp [hr] at h
            | ok res =>
                simp only [hr, Outcome.ok.injEq] at h
                subst h
                exact ⟨rfl, ⟨s, rfl, rfl⟩, rfl, rfl⟩
      · simp only [hl, if_false] at h ⊢
        cases hr : stringifyHanded host.log result c with
        | error e => simp [hr] at h
        | hang => simp [hr] at h
        | ok res =>
            simp only [hr, Outcome.ok.injEq] at h
            subst h
            exact ⟨rfl, rfl, rfl, rfl⟩

/-- C1: `executeCode` does throw.  A snippet that throws `null` or `undefined` makes the
`catch` block itself throw on `err.code`, and a final value without a string form makes
`String(result)` throw outside the `try`. -/
theorem executeCode_throws (elapsedNs : Nat) :
    executeCode (.throw .null) elapsedNs =
        .error (JSValue.typeError "Cannot read properties of null (reading 'code')") ∧
      executeCode (.throw .undefined) elapsedNs =
        .error (JSValue.typeError "Cannot read properties of undefined (reading 'code')") ∧
      executeCode (.ret (.object [] none)) elapsedNs =
        .error (JSValue.typeError "Cannot convert object to primitive value") :=
  ⟨rfl, rfl, rfl⟩

/-- C2: after a failed evaluation the returned `result` is the four-character string
`"null"`, not the JSON null: so it is for `while(true){}`, and for every failing snippet
for which `executeCode` returns a record. -/
theorem failed_evaluation_result (elapsedNs : Nat) :
    executeCode .timeout elapsedNs =
        .ok ⟨"", none, some "null", .string "Execution timed out (limit: 1000ms)",
          roundTime elapsedNs⟩ ∧
      ∀ (script : Script) (e : JSValue) (r : ExecutionResult),
        (run script ⟨[], []⟩ []).completion = .error e →
          executeCode script elapsedNs = .ok r → r.result = some "null" := by
  refine ⟨?_, ?_⟩
  · have h : timeoutMessage = "Execution timed out (limit: 1000ms)" := timeoutMessage_eq
    show Outcome.ok _ = _
    rw [← h]
    rfl
  · intro script e r hfail hr
    simp only [executeCode, tryCatch, hfail] at hr
    cases hc : catchBlock e with
    | error x => simp [hc] at hr
    | ok msg =>
        simp only [hc] at hr
        have h := (buildResult_ok hr).2.2.1
        simp [stringifyHanded, stringifyResult, JSValue.isDefined, JSValue.toJSString,
          Outcome.ofExcept] at h
        exact h.symm

/-- C3: the snippet `console.log(s)` returns `output = s` and `error = null`, but its
`result` is `"1"`, the length `push` returned, not null; every snippet that ends in a
sandbox console call with convertible arguments has `result = "1"`. -/
theorem consoleLog_result (s : String) (elapsedNs : Nat) :
    executeCode (consoleLogSnippet s) elapsedNs =
        .ok ⟨s, none, some "1", .null, roundTime elapsedNs⟩ ∧
      ∀ (m : ConsoleMethod) (args : List JSValue) (strs : List String),
        stringifyAll args = .ok strs →
          ∃ r, executeCode (consoleSnippet m args) elapsedNs = .ok r ∧ r.result = some "1" := by
  refine ⟨?_, ?_⟩
  · simp [executeCode, run, runFrom, consoleLogSnippet, standardHost, consoleCallWith,
      convertAll, convertArg, JSValue.toJSString, Outcome.ofExcept, pushLine, tryCatch,
      buildResult, stringifyHanded, stringifyResult, JSValue.isDefined, String.intercalate]
    exact ⟨rfl, by decide⟩
  · intro m args strs h
    simp only [executeCode, run, consoleSnippet, runFrom_console, consoleCall, h]
    cases m <;>
      simp [runFrom, pushLine, tryCatch, buildResult, standardHost, stringifyHanded,
        stringifyResult, JSValue.isDefined, JSValue.toJSString, Outcome.ofExcept] <;> rfl

/-- C4, counterexample: the snippet `throw {code: 'ERR_SCRIPT_EXECUTION_TIMEOUT',
message: 'boom'}` is no timeout and its message is `boom`, yet `error` is the timeout
text. -/
theorem forged_timeout_code :
    ∃ r, executeCode (.throw forgedTimeout) 0 = .ok r ∧
      forgedTimeout.getProp "message" = .ok (.string "boom") ∧
      r.error = .string "Execution timed out (limit: 1000ms)" ∧
      r.error ≠ .string "boom" := by
  refine ⟨_, rfl, rfl, ?_, ?_⟩
  · simp [catchBlock, forgedTimeout, JSValue.getProp, List.lookup, JSValue.strictEqString,
      timeoutMessage_eq]
  · simp [catchBlock, forgedTimeout, JSValue.getProp, List.lookup, JSValue.strictEqString,
      timeoutMessage_eq]

/-! ## The host during a run -/

theorem runFrom_patched_true (script : Script) :
    ∀ (h : Host) (c : Collectors) (t : List (ConsoleMethod × List Handed)),
      (runFrom script h true c t).patched = true := by
  induction script with
  | ret v => intro h c t; rfl
  | throw v => intro h c t; rfl
  | timeout => intro h c t; rfl
  | syntaxError msg => intro h c t; rfl
  | retScripted o => intro h c t; rfl
  | throwScripted o => intro h c t; rfl
  | console m args k ih =>
      intro h c t
      simp only [runFrom]
      split
      · exact ih _ _ _ _
      · exact ih _ _ _ _
      · rfl
  | consoleWith m args k ih =>
      intro h c t
      simp only [runFrom]
      split
      · exact ih _ _ _ _
      · exact ih _ _ _ _
      · rfl
  | global name k ih => intro h c t; exact ih _ _ _ _
  | patch host k ih => intro h c t; exact ih _ _ _

theorem runFrom_host (script : Script) :
    ∀ (h : Host) (p : Bool) (c : Collectors) (t : List (ConsoleMethod × List Handed)),
      (runFrom script h p c t).patched = false → (runFrom script h p c t).host = h := by
  induction script with
  | ret v => intro h p c t _; rfl
  | throw v => intro h p c t _; rfl
  | timeout => intro h p c t _; rfl
  | syntaxError msg => intro h p c t _; rfl
  | retScripted o => intro h p c t _; rfl
  | throwScripted o => intro h p c t _; rfl
  | console m args k ih =>
      intro h p c t
      simp only [runFrom]
      split
      · exact ih _ _ _ _ _
      · exact ih _ _ _ _ _
      · intro _; rfl
  | consoleWith m args k ih =>
      intro h p c t
      simp only [runFrom]
      split
      · exact ih _ _ _ _ _
      · exact ih _ _ _ _ _
      · intro _; rfl
  | global name k ih => intro h p c t; exact ih _ _ _ _ _
  | patch host k ih =>
      intro h p c t hp
      simp only [runFrom] at hp
      rw [runFrom_patched_true] at hp
      exact absurd hp (by simp)

theorem run_host {script : Script} {c : Collectors} {t : List (ConsoleMethod × List Handed)}
    (h : (run script c t).patched = false) : (run script c t).host = standardHost :=
  runFrom_host script standardHost false c t h

theorem stringifyAll_strings (strs : List String) :
    stringifyAll (strs.map .string) = .ok strs := by
  induction strs with
  | nil => rfl
  | cons s ss ih => simp [stringifyAll, JSValue.toJSString, ih]

theorem standardHost_log : standardHost.log = standardLog := by
  funext m strs c
  have h := consoleCallWith_plain m (strs.map .string) c
  simp only [List.map_map] at h
  show consoleCallWith m (strs.map fun s => Handed.plain (.string s)) c = _
  have e : (strs.map fun s => Handed.plain (.string s)) =
      List.map (Handed.plain ∘ JSValue.string) strs := rfl
  rw [e, h]
  simp [consoleCall, stringifyAll_strings, Outcome.ofExcept, standardLog]

theorem runLogs_standard (logs : List (ConsoleMethod × List String)) :
    ∀ c, (runLogs standardLog logs c).1 = .ok () := by
  induction logs with
  | nil => intro c; rfl
  | cons l ls ih =>
      intro c
      obtain ⟨m, strs⟩ := l
      simp only [runLogs, standardLog]
      exact ih _

theorem runHook_ok {α : Type} {log : Log} {h : Hook α} {c c1 : Collectors} {a : α}
    (hr : runHook log h c = (.ok a, c1)) : h.ending = .returns a := by
  simp only [runHook] at hr
  split at hr
  · split at hr
    · simp only [Prod.mk.injEq, Outcome.ok.injEq] at hr
      rename_i heq
      rw [heq, hr.1]
    · simp at hr
    · simp at hr
  · simp at hr
  · simp at hr

theorem runHook_standard {α : Type} (h : Hook α) (c : Collectors) (a : α)
    (he : h.ending = .returns a) : (runHook standardLog h c).1 = .ok a := by
  have hl := runLogs_standard h.logs c
  simp only [runHook]
  generalize runLogs standardLog h.logs c = x at hl
  obtain ⟨r, c1⟩ := x
  simp only at hl
  subst hl
  simp [he]

theorem catchScripted_ok {log : Log} {o : Scripted} {c c1 : Collectors} {msg : JSValue}
    (h : catchScripted log o c = (.ok msg, c1)) :
    ∃ code, o.code.ending = .returns code ∧
      if code.strictEqString "ERR_SCRIPT_EXECUTION_TIMEOUT" = true then
        msg = .string "Execution timed out (limit: 1000ms)"
      else o.message.ending = .returns msg := by
  simp only [catchScripted] at h
  split at h
  · rename_i code c2 hcode
    refine ⟨code, runHook_ok hcode, ?_⟩
    by_cases hc : code.strictEqString "ERR_SCRIPT_EXECUTION_TIMEOUT" = true
    · rw [if_pos hc] at h ⊢
      simp only [Prod.mk.injEq, Outcome.ok.injEq] at h
      rw [← h.1, timeoutMessage_eq]
    · rw [if_neg hc] at h ⊢
      exact runHook_ok h
  · simp at h
  · simp at h

theorem catchBlock_total {e : JSValue} (hn : e ≠ .null) (hu : e ≠ .undefined) :
    ∃ msg, catchBlock e = .ok msg := by
  cases e with
  | undefined => exact absurd rfl hu
  | null => exact absurd rfl hn
  | bool b => exact ⟨_, rfl⟩
  | number n => exact ⟨_, rfl⟩
  | string s => exact ⟨_, rfl⟩
  | object props str =>
      simp only [catchBlock, JSValue.getProp]
      cases props.lookup "code" with
      | none =>
          cases props.lookup "message" <;> simp [JSValue.strictEqString]
      | some code =>
          by_cases hc : code.strictEqString "ERR_SCRIPT_EXECUTION_TIMEOUT" = true
          · simp [hc]
          · cases props.lookup "message" <;> simp [hc]

theorem buildResult_standard (c : Collectors) (error : JSValue) (elapsedNs : Nat) :
    ∃ r, buildResult standardHost c (.plain .null) error elapsedNs = .ok r := by
  by_cases hl : c.errors.length > 0
  · exact ⟨_, by
      simp [buildResult, standardHost, hl, stringifyHanded, stringifyResult,
        JSValue.isDefined, JSValue.toJSString, Outcome.ofExcept]; rfl⟩
  · exact ⟨_, by
      simp [buildResult, standardHost, hl, stringifyHanded, stringifyResult,
        JSValue.isDefined, JSValue.toJSString, Outcome.ofExcept]; rfl⟩

theorem error_field_cases (script : Script) (elapsedNs : Nat) :
    timeoutMessage = "Execution timed out (limit: " ++ toString TIMEOUT_MS ++ "ms)" ∧
      (∀ r, executeCode script elapsedNs = .ok r →
        ((run script ⟨[], []⟩ []).completion = .error timeoutError →
            r.error = .string "Execution timed out (limit: 1000ms)") ∧
          (∀ e, (run script ⟨[], []⟩ []).completion = .error e →
            ∃ code, e.getProp "code" = .ok code ∧
              if code.strictEqString "ERR_SCRIPT_EXECUTION_TIMEOUT" = true then
                r.error = .string "Execution timed out (limit: 1000ms)"
              else e.getProp "message" = .ok r.error) ∧
          (∀ o, (run script ⟨[], []⟩ []).completion = .errorScripted o →
            ∃ code, o.code.ending = .returns code ∧
              if code.strictEqString "ERR_SCRIPT_EXECUTION_TIMEOUT" = true then
                r.error = .string "Execution timed out (limit: 1000ms)"
              else o.message.ending = .returns r.error)) ∧
      ((run script ⟨[], []⟩ []).patched = false →
        (∀ e, (run script ⟨[], []⟩ []).completion = .error e → e ≠ .null → e ≠ .undefined →
            ∃ r, executeCode script elapsedNs = .ok r) ∧
          (∀ o code, (run script ⟨[], []⟩ []).completion = .errorScripted o →
            o.code.ending = .returns code →
            (code.strictEqString "ERR_SCRIPT_EXECUTION_TIMEOUT" = true ∨
                ∃ msg, o.message.ending = .returns msg) →
              ∃ r, executeCode script elapsedNs = .ok r)) := by
  have plainCase : ∀ r e, executeCode script elapsedNs = .ok r →
      (run script ⟨[], []⟩ []).completion = .error e →
        ∃ code, e.getProp "code" = .ok code ∧
          if code.strictEqString "ERR_SCRIPT_EXECUTION_TIMEOUT" = true then
            r.error = .string "Execution timed out (limit: 1000ms)"
          else e.getProp "message" = .ok r.error := by
    intro r e hr he
    simp only [executeCode, tryCatch, he] at hr
    cases hc : catchBlock e with
    | error x => simp [hc] at hr
    | ok msg =>
        simp only [hc] at hr
        have herr := (buildResult_ok hr).2.2.2
        simp only [catchBlock] at hc
        cases hcode : e.getProp "code" with
        | error x => simp [hcode] at hc
        | ok code =>
            refine ⟨code, rfl, ?_⟩
            simp only [hcode] at hc
            by_cases hcd : code.strictEqString "ERR_SCRIPT_EXECUTION_TIMEOUT" = true
            · rw [if_pos hcd] at hc ⊢
              rw [herr, ← Except.ok.inj hc, timeoutMessage_eq]
            · rw [if_neg hcd] at hc ⊢
              rw [herr, hc]
  refine ⟨rfl, ?_, ?_⟩
  · intro r hr
    refine ⟨?_, fun e he => plainCase r e hr he, ?_⟩
    · intro ht
      obtain ⟨code, hcode, hif⟩ := plainCase r _ hr ht
      have hc : code = .string "ERR_SCRIPT_EXECUTION_TIMEOUT" := by
        have : timeoutError.getProp "code" = .ok (.string "ERR_SCRIPT_EXECUTION_TIMEOUT") := rfl
        rw [this] at hcode
        exact (Except.ok.inj hcode).symm
      subst hc
      simpa [JSValue.strictEqString] using hif
    · intro o ho
      simp only [executeCode, tryCatch, ho] at hr
      cases hc : catchScripted (run script ⟨[], []⟩ []).host.log o
          (run script ⟨[], []⟩ []).collectors with
      | mk out c1 =>
          cases out with
          | error x => simp [hc] at hr
          | hang => simp [hc] at hr
          | ok msg =>
              simp only [hc] at hr
              have herr := (buildResult_ok hr).2.2.2
              rw [herr]
              exact catchScripted_ok hc
  · intro hp
    have hh := run_host hp
    refine ⟨?_, ?_⟩
    · intro e he hn hu
      obtain ⟨msg, hmsg⟩ := catchBlock_total hn hu
      simp only [executeCode, tryCatch, he, hmsg, hh]
      exact buildResult_standard _ _ _
    · intro o code ho hcode hmsg
      simp only [executeCode, tryCatch, ho, hh, standardHost_log, catchScripted]
      have h1 := runHook_standard o.code (run script ⟨[], []⟩ []).collectors code hcode
      generalize runHook standardLog o.code (run script ⟨[], []⟩ []).collectors = x at h1
      obtain ⟨r1, c1⟩ := x
      simp only at h1
      subst h1
      by_cases hcd : code.strictEqString "ERR_SCRIPT_EXECUTION_TIMEOUT" = true
      · simp only [if_pos hcd]
        exact buildResult_standard _ _ _
      · rcases hmsg with hmsg | ⟨msg, hmsg⟩
        · exact absurd hmsg hcd
        · simp only [if_neg hcd]
          have h2 := runHook_standard o.message c1 msg hmsg
          generalize runHook standardLog o.message c1 = y at h2
          obtain ⟨r2, c2⟩ := y
          simp only at h2
          subst h2
          exact buildResult_standard _ _ _

/-- C4, amended: for a snippet that replaces no built-in of the host, a run interrupted
by the engine's timeout yields a record whose `error` is
`Execution timed out (limit: 1000ms)`, the number being `TIMEOUT_MS`.  For any other
caught value on which the reads of `code` and `message` return, a record is returned
and its `error` is that same text when the value read for `code` is the string
`ERR_SCRIPT_EXECUTION_TIMEOUT`, and the value read for `message` otherwise: so for
every plain value other than `null` and `undefined`, and for a scripted object whose
accessors return. -/
theorem error_field_of_failure (script : Script) (elapsedNs : Nat) :
    timeoutMessage = "Execution timed out (limit: " ++ toString TIMEOUT_MS ++ "ms)" ∧
      ((run script ⟨[], []⟩ []).patched = false →
        ((run script ⟨[], []⟩ []).completion = .error timeoutError →
            ∃ r, executeCode script elapsedNs = .ok r ∧
              r.error = .string "Execution timed out (limit: 1000ms)") ∧
          (∀ e, (run script ⟨[], []⟩ []).completion = .error e → e ≠ .null → e ≠ .undefined →
            ∃ r code msg, executeCode script elapsedNs = .ok r ∧
              e.getProp "code" = .ok code ∧ e.getProp "message" = .ok msg ∧
              r.error =
                if code.strictEqString "ERR_SCRIPT_EXECUTION_TIMEOUT" then
                  .string "Execution timed out (limit: 1000ms)"
                else msg) ∧
          (∀ o code, (run script ⟨[], []⟩ []).completion = .errorScripted o →
            o.code.ending = .returns code →
              (code.strictEqString "ERR_SCRIPT_EXECUTION_TIMEOUT" = true →
                  ∃ r, executeCode script elapsedNs = .ok r ∧
                    r.error = .string "Execution timed out (limit: 1000ms)") ∧
                (code.strictEqString "ERR_SCRIPT_EXECUTION_TIMEOUT" = false →
                  ∀ msg, o.message.ending = .returns msg →
                    ∃ r, executeCode script elapsedNs = .ok r ∧ r.error = msg))) := by
  obtain ⟨h0, hdet, hex⟩ := error_field_cases script elapsedNs
  refine ⟨h0, ?_⟩
  intro hp
  obtain ⟨hexPlain, hexScripted⟩ := hex hp
  have plain : ∀ e, (run script ⟨[], []⟩ []).completion = .error e → e ≠ .null →
      e ≠ .undefined →
        ∃ r code msg, executeCode script elapsedNs = .ok r ∧
          e.getProp "code" = .ok code ∧ e.getProp "message" = .ok msg ∧
          r.error =
            if code.strictEqString "ERR_SCRIPT_EXECUTION_TIMEOUT" then
              .string "Execution timed out (limit: 1000ms)"
            else msg := by
    intro e he hn hu
    obtain ⟨r, hr⟩ := hexPlain e he hn hu
    obtain ⟨code, hcode, hif⟩ := (hdet r hr).2.1 e he
    have hmsg : ∃ msg, e.getProp "message" = .ok msg := by
      cases e <;> simp [JSValue.getProp] at hn hu ⊢
      split <;> simp
    obtain ⟨msg, hmsg⟩ := hmsg
    refine ⟨r, code, msg, hr, hcode, hmsg, ?_⟩
    by_cases hcd : code.strictEqString "ERR_SCRIPT_EXECUTION_TIMEOUT" = true
    · rw [if_pos hcd] at hif ⊢
      exact hif
    · rw [if_neg hcd] at hif ⊢
      rw [hmsg] at hif
      exact (Except.ok.inj hif).symm
  refine ⟨?_, plain, ?_⟩
  · intro ht
    obtain ⟨r, _, _, hr, _, _, _⟩ := plain timeoutError ht (by simp [timeoutError])
      (by simp [timeoutError])
    exact ⟨r, hr, (hdet r hr).1 ht⟩
  · intro o code ho hcode
    refine ⟨?_, ?_⟩
    · intro hcd
      obtain ⟨r, hr⟩ := hexScripted o code ho hcode (Or.inl hcd)
      obtain ⟨code2, hcode2, hif⟩ := (hdet r hr).2.2 o ho
      have : code2 = code := by
        rw [hcode] at hcode2
        exact (Ending.returns.inj hcode2).symm
      subst this
      rw [if_pos hcd] at hif
      exact ⟨r, hr, hif⟩
    · intro hcd msg hmsg
      obtain ⟨r, hr⟩ := hexScripted o code ho hcode (Or.inr ⟨msg, hmsg⟩)
      obtain ⟨code2, hcode2, hif⟩ := (hdet r hr).2.2 o ho
      have : code2 = code := by
        rw [hcode] at hcode2
        exact (Ending.returns.inj hcode2).symm
      subst this
      rw [if_neg (by simp [hcd])] at hif
      rw [hmsg] at hif
      exact ⟨r, hr, (Ending.returns.inj hif).symm⟩

/-- The snippet `while(true){}` replaces no built-in and ends in the engine's timeout
error; a record is returned, and its `error` is the timeout text. -/
theorem error_field_of_failure_witness :
    (run .timeout ⟨[], []⟩ []).patched = false ∧
      (run .timeout ⟨[], []⟩ []).completion = .error timeoutError ∧
      ∃ r, executeCode .timeout 0 = .ok r ∧
        r.error = .string "Execution timed out (limit: 1000ms)" :=
  ⟨rfl, rfl, ((error_field_of_failure .timeout 0).2 rfl).1 rfl⟩

/-! ## Ways in which code of the snippet runs in the host -/

/-- An accessor that throws escapes the `catch` block: `throw { get code() { throw 'x' } }`
makes `executeCode` throw `'x'`. -/
theorem throwing_accessor_escapes (elapsedNs : Nat) :
    executeCode (.throwScripted throwingAccessor) elapsedNs = .error (.string "x") := rfl

/-- A conversion that never returns is under no deadline: with the final value
`({ toString() { while (true) {} } })` the call of `executeCode` never returns, and the
handler writes no response. -/
theorem looping_conversion_hangs (vm : String → Script) (elapsedNs : Nat) (text : String)
    (hne : text ≠ "") (hvm : vm text = .retScripted loopingConversion) :
    executeCode (.retScripted loopingConversion) elapsedNs = .hang ∧
      handleRequest vm elapsedNs ⟨"POST", "/execute", some (.obj [("code", .str text)])⟩ =
        none := by
  refine ⟨rfl, ?_⟩
  have he : executeCode (.retScripted loopingConversion) elapsedNs = .hang := rfl
  simp [handleRequest, handleExecute, destructureCode, List.lookup, validCode, hne, hvm, he]

/-- After `Array.prototype.push = function () { return 0 }` a `console.log('a')` adds no
line: `output` is empty although the snippet made one `log` call. -/
theorem patched_push_no_line :
    ∃ r, executeCode deafPushSnippet 0 = .ok r ∧ r.output = "" ∧
      (run deafPushSnippet ⟨[], []⟩ []).calls.length = 1 ∧
      (run deafPushSnippet ⟨[], []⟩ []).patched = true :=
  ⟨_, rfl, rfl, rfl, rfl⟩

/-- After `Array.prototype.join = function () { throw 'j' }` a snippet that runs into
the timeout gets no record: `output.join` of line 89 throws out of `executeCode`. -/
theorem patched_join_escapes (elapsedNs : Nat) :
    executeCode throwingJoinSnippet elapsedNs = .error (.string "j") ∧
      (run throwingJoinSnippet ⟨[], []⟩ []).completion = .error timeoutError ∧
      (run throwingJoinSnippet ⟨[], []⟩ []).patched = true :=
  ⟨rfl, rfl, rfl⟩

/-- A `toString` that logs: in `console.log(o)` the line of the nested call comes before
the line of the call that caused it, and as the final value its line is lost, because
`output.join` of line 89 runs before `String(result)` of line 91. -/
theorem logging_conversion_lines :
    (∃ r, executeCode nestedLogSnippet 0 = .ok r ∧ r.output = "x\ns") ∧
      ∃ r, executeCode (.retScripted loggingConversion) 0 = .ok r ∧ r.output = "" ∧
        r.result = some "s" :=
  ⟨⟨_, rfl, by decide⟩, ⟨_, rfl, rfl, rfl⟩⟩

/-! ## The console channels -/

theorem plain_all (args : List JSValue) :
    (args.map Handed.plain).all Handed.isPlain = true := by
  induction args with
  | nil => rfl
  | cons v vs ih => simp [Handed.isPlain]

theorem plain_values (args : List JSValue) :
    (args.map Handed.plain).filterMap Handed.value? = args := by
  induction args with
  | nil => rfl
  | cons v vs ih => simp [Handed.value?, ih]

theorem plain_of_all (args : List Handed) (h : args.all Handed.isPlain = true) :
    args = (args.filterMap Handed.value?).map Handed.plain := by
  induction args with
  | nil => rfl
  | cons a rest ih =>
      simp only [List.all_cons, Bool.and_eq_true] at h
      cases a with
      | plain v => simp [Handed.value?, ← ih h.2]
      | scripted o => simp [Handed.isPlain] at h

theorem callLine_plain (m : ConsoleMethod) (args : List JSValue) :
    callLine (m, args.map .plain) =
      match stringifyAll args with
      | .ok strs => some (m.line (" ".intercalate strs))
      | .error _ => none := by
  simp only [callLine, plain_all, plain_values, if_true]

theorem consoleCall_lines (m : ConsoleMethod) (args : List JSValue) (c : Collectors)
    (t : List (ConsoleMethod × List Handed))
    (ho : c.output = outputLines t) (he : c.errors = errorLines t) :
    (consoleCall m args c).2.output = outputLines (t ++ [(m, args.map .plain)]) ∧
      (consoleCall m args c).2.errors = errorLines (t ++ [(m, args.map .plain)]) := by
  unfold outputLines errorLines at *
  rw [List.filterMap_append, List.filterMap_append, ← ho, ← he]
  simp only [List.filterMap_cons, List.filterMap_nil, callLine_plain]
  cases hs : stringifyAll args with
  | error e => cases m <;> simp [consoleCall, hs]
  | ok strs => cases m <;> simp [consoleCall, hs, pushLine, ConsoleMethod.line]

theorem runFrom_calls (script : Script) :
    ∀ (h : Host) (p : Bool) (c : Collectors) (t : List (ConsoleMethod × List Handed)),
      ∃ rest, (runFrom script h p c t).calls = t ++ rest := by
  induction script with
  | ret v => intro h p c t; exact ⟨[], by simp [runFrom]⟩
  | throw v => intro h p c t; exact ⟨[], by simp [runFrom]⟩
  | timeout => intro h p c t; exact ⟨[], by simp [runFrom]⟩
  | syntaxError msg => intro h p c t; exact ⟨[], by simp [runFrom]⟩
  | retScripted o => intro h p c t; exact ⟨[], by simp [runFrom]⟩
  | throwScripted o => intro h p c t; exact ⟨[], by simp [runFrom]⟩
  | console m args k ih =>
      intro h p c t
      simp only [runFrom]
      split
      · obtain ⟨rest, hr⟩ := ih _ h p _ (t ++ [(m, args.map .plain)])
        exact ⟨[(m, args.map .plain)] ++ rest, by rw [hr]; simp⟩
      · obtain ⟨rest, hr⟩ := ih _ h p _ (t ++ [(m, args.map .plain)])
        exact ⟨[(m, args.map .plain)] ++ rest, by rw [hr]; simp⟩
      · exact ⟨[(m, args.map .plain)], rfl⟩
  | consoleWith m args k ih =>
      intro h p c t
      simp only [runFrom]
      split
      · obtain ⟨rest, hr⟩ := ih _ h p _ (t ++ [(m, args)])
        exact ⟨[(m, args)] ++ rest, by rw [hr]; simp⟩
      · obtain ⟨rest, hr⟩ := ih _ h p _ (t ++ [(m, args)])
        exact ⟨[(m, args)] ++ rest, by rw [hr]; simp⟩
      · exact ⟨[(m, args)], rfl⟩
  | global name k ih => intro h p c t; exact ih _ h p c t
  | patch host k ih => intro h p c t; exact ih _ _ c t

theorem consoleWith_mem (m : ConsoleMethod) (args : List Handed)
    (k : Except JSValue JSValue → Script) (h : Host) (p : Bool) (c : Collectors)
    (t : List (ConsoleMethod × List Handed)) :
    (m, args) ∈ (runFrom (.consoleWith m args k) h p c t).calls := by
  simp only [runFrom]
  split
  · obtain ⟨rest, hr⟩ := runFrom_calls (k (.ok _)) h p _ (t ++ [(m, args)])
    rw [hr]; simp
  · obtain ⟨rest, hr⟩ := runFrom_calls (k (.error _)) h p _ (t ++ [(m, args)])
    rw [hr]; simp
  · simp

theorem run_lines (script : Script) :
    ∀ (c : Collectors) (t : List (ConsoleMethod × List Handed)),
      (runFrom script standardHost false c t).patched = false →
      plainArguments (runFrom script standardHost false c t).calls = true →
      c.output = outputLines t → c.errors = errorLines t →
        (runFrom script standardHost false c t).collectors.output =
            outputLines (runFrom script standardHost false c t).calls ∧
          (runFrom script standardHost false c t).collectors.errors =
            errorLines (runFrom script standardHost false c t).calls := by
  induction script with
  | ret v => intro c t _ _ ho he; exact ⟨ho, he⟩
  | throw v => intro c t _ _ ho he; exact ⟨ho, he⟩
  | timeout => intro c t _ _ ho he; exact ⟨ho, he⟩
  | syntaxError msg => intro c t _ _ ho he; exact ⟨ho, he⟩
  | retScripted o => intro c t _ _ ho he; exact ⟨ho, he⟩
  | throwScripted o => intro c t _ _ ho he; exact ⟨ho, he⟩
  | console m args k ih =>
      intro c t hp ha ho he
      rw [runFrom_console] at hp ha ⊢
      have h := consoleCall_lines m args c t ho he
      exact ih _ _ _ hp ha h.1 h.2
  | consoleWith m args k ih =>
      intro c t hp ha ho he
      have hmem := consoleWith_mem m args k standardHost false c t
      have hall : args.all Handed.isPlain = true := by
        have := List.all_eq_true.mp ha _ hmem
        simpa using this
      have hargs := plain_of_all args hall
      have hsame : runFrom (.consoleWith m args k) standardHost false c t =
          runFrom (.console m (args.filterMap Handed.value?) k) standardHost false c t := by
        conv_lhs => rw [hargs]
        simp only [runFrom]
      rw [hsame, runFrom_console] at hp ha ⊢
      have h := consoleCall_lines m (args.filterMap Handed.value?) c t ho he
      exact ih _ _ _ hp ha h.1 h.2
  | global name k ih =>
      intro c t hp ha ho he
      exact ih _ c t hp ha ho he
  | patch host k ih =>
      intro c t hp
      simp only [runFrom] at hp
      rw [runFrom_patched_true] at hp
      exact absurd hp (by simp)

theorem tryCatch_plain {st : RunState} (hend : st.completion.isPlain = true)
    {result : Handed} {error : JSValue} {c : Collectors}
    (h : tryCatch st = (.ok (result, error), c)) : c = st.collectors := by
  simp only [tryCatch] at h
  cases hc : st.completion with
  | ok v => simp [hc] at h; exact h.2.symm
  | error e =>
      simp only [hc] at h
      cases hb : catchBlock e with
      | ok msg => simp [hb] at h; exact h.2.symm
      | error x => simp [hb] at h
  | okScripted o => simp [hc, Completion.isPlain] at hend
  | errorScripted o => simp [hc, Completion.isPlain] at hend

/-- C5, counterexample: of three `console.log` calls the second, whose argument `String`
cannot convert, pushes nothing, so `output` is `a` and `b` joined, not three lines. -/
theorem unconvertible_argument_no_line :
    ∃ r, executeCode threeLogs 0 = .ok r ∧
      (run threeLogs ⟨[], []⟩ []).calls.length = 3 ∧
      r.output = "a\nb" ∧
      ¬ ∃ l : String, r.output = "\n".intercalate ["a", l, "b"] := by
  have ho : "\n".intercalate (run threeLogs ⟨[], []⟩ []).collectors.output = "a\nb" := by
    decide
  refine ⟨_, rfl, rfl, ho, ?_⟩
  rintro ⟨l, hl⟩
  have hl2 : "a\nb" = "\n".intercalate ["a", l, "b"] := ho.symm.trans hl
  have h := congrArg String.length hl2
  have h1 : String.length "a\nb" = 3 := by decide
  have h2 : String.length "a" = 1 := by decide
  have h3 : String.length "\n" = 1 := by decide
  have h4 : String.length "b" = 1 := by decide
  simp only [String.intercalate, String.intercalate.go, String.length_append, h1, h2, h3,
    h4] at h
  omega

/-- C5, amended: for a snippet that replaces no built-in of the host and hands the host
only plain values (console arguments, final value, thrown value), `output` is the
newline-join, in call order, of the lines of the `log`, `warn` and `info` calls whose
arguments all convert with `String` (arguments joined by a space, `[WARN] ` or
`[INFO] ` in front for `warn` and `info`); `errors` is the newline-join of the lines of
such `error` calls, or null when there is none; a call with an argument that `String`
cannot convert adds no line.  Three `log` calls with string arguments yield the three
strings joined by newlines, and the four methods put their prefixes and spaces as
stated. -/
theorem console_channels (script : Script) (elapsedNs : Nat) (r : ExecutionResult)
    (hhost : (run script ⟨[], []⟩ []).patched = false)
    (hargs : plainArguments (run script ⟨[], []⟩ []).calls = true)
    (hend : (run script ⟨[], []⟩ []).completion.isPlain = true)
    (h : executeCode script elapsedNs = .ok r) :
    r.output = "\n".intercalate (outputLines (run script ⟨[], []⟩ []).calls) ∧
      r.errors =
        (if errorLines (run script ⟨[], []⟩ []).calls = [] then none
         else some ("\n".intercalate (errorLines (run script ⟨[], []⟩ []).calls))) ∧
      (∀ a b c : String,
        ∃ r3, executeCode
            (callsSnippet [(.log, [.string a]), (.log, [.string b]), (.log, [.string c])]
              (.ret .undefined)) elapsedNs = .ok r3 ∧
          r3.output = a ++ "\n" ++ b ++ "\n" ++ c ∧ r3.errors = none) ∧
      ∃ r4, executeCode fourMethods elapsedNs = .ok r4 ∧
        r4.output = "[WARN] a 1\n[INFO] true\n" ∧ r4.errors = some "e null" := by
  have hl := run_lines script ⟨[], []⟩ [] hhost hargs rfl rfl
  have hh := run_host hhost
  have key : ∃ result error, buildResult standardHost (run script ⟨[], []⟩ []).collectors
      result error elapsedNs = .ok r := by
    simp only [executeCode] at h
    cases ht : tryCatch (run script ⟨[], []⟩ []) with
    | mk out c =>
        cases out with
        | error e => simp [ht] at h
        | hang => simp [ht] at h
        | ok pair =>
            obtain ⟨result, error⟩ := pair
            simp only [ht] at h
            have hc := tryCatch_plain hend ht
            rw [hc, hh] at h
            exact ⟨result, error, h⟩
  obtain ⟨result, error, hb⟩ := key
  have hb' := buildResult_ok hb
  refine ⟨?_, ?_, ?_, ?_⟩
  · have h1 := hb'.1
    simp only [standardHost, Outcome.ok.injEq] at h1
    rw [← h1]
    exact congrArg _ hl.1
  · have h2 := hb'.2.1
    have he := hl.2
    simp only [run] at he ⊢
    rw [← he]
    cases hce : (runFrom script standardHost false ⟨[], []⟩ []).collectors.errors with
    | nil =>
        simp only [run, hce, List.length_nil, gt_iff_lt, Nat.lt_irrefl, if_false] at h2
        simp [h2]
    | cons x xs =>
        simp only [run, hce, List.length_cons, gt_iff_lt, Nat.zero_lt_succ, if_true] at h2
        obtain ⟨s, hs, hr⟩ := h2
        simp only [standardHost, Outcome.ok.injEq] at hs
        simp [hr, ← hs]
  · intro a b c
    exact ⟨_, rfl, rfl, rfl⟩
  · have o4 : "\n".intercalate (run fourMethods ⟨[], []⟩ []).collectors.output =
        "[WARN] a 1\n[INFO] true\n" := by decide
    have e4 : "\n".intercalate (run fourMethods ⟨[], []⟩ []).collectors.errors = "e null" := by
      decide
    exact ⟨_, rfl, o4, congrArg some e4⟩

/-- The snippet `console.log('hi')` replaces no built-in and hands over plain values
only; it returns a record, and its `output` is the one line of its one call. -/
theorem console_channels_witness :
    (run (consoleLogSnippet "hi") ⟨[], []⟩ []).patched = false ∧
      plainArguments (run (consoleLogSnippet "hi") ⟨[], []⟩ []).calls = true ∧
      (run (consoleLogSnippet "hi") ⟨[], []⟩ []).completion.isPlain = true ∧
      ∃ r, executeCode (consoleLogSnippet "hi") 0 = .ok r ∧
        r.output =
          "\n".intercalate (outputLines (run (consoleLogSnippet "hi") ⟨[], []⟩ []).calls) ∧
        r.output = "hi" :=
  ⟨rfl, rfl, rfl, _, rfl,
    (console_channels (consoleLogSnippet "hi") 0 _ rfl rfl rfl rfl).1, rfl⟩

/-- C6: a failed evaluation can produce a 400 response and a 200 response without an
`error` member.  The body `{"code": "throw null"}` is answered with status 400 and
`Invalid JSON body`, because `executeCode` throws into the handler's `catch`; the body
`{"code": "throw 42"}` is answered with status 200 and a record whose `error` is
`undefined`, which serialisation omits. -/
theorem failed_evaluation_responses (vm : String → Script) (elapsedNs : Nat)
    (hnull : vm "throw null" = .throw .null)
    (hnum : vm "throw 42" = .throw (.number 42)) :
    handleRequest vm elapsedNs ⟨"POST", "/execute", some (.obj [("code", .str "throw null")])⟩ =
        some ⟨400, .message "Invalid JSON body"⟩ ∧
      ∃ r, handleRequest vm elapsedNs
            ⟨"POST", "/execute", some (.obj [("code", .str "throw 42")])⟩ =
          some ⟨200, .execution r⟩ ∧ r.error = .undefined ∧ r.errorPopulated = false := by
  have e1 : executeCode (.throw .null) elapsedNs =
      .error (JSValue.typeError "Cannot read properties of null (reading 'code')") := rfl
  have e2 : executeCode (.throw (.number 42)) elapsedNs =
      .ok ⟨"", none, some "null", .undefined, roundTime elapsedNs⟩ := rfl
  refine ⟨?_, ?_⟩
  · simp [handleRequest, handleExecute, destructureCode, List.lookup, validCode, hnull, e1]
  · refine ⟨⟨"", none, some "null", .undefined, roundTime elapsedNs⟩, ?_, rfl, rfl⟩
    simp [handleRequest, handleExecute, destructureCode, List.lookup, validCode, hnum, e2]

/-- An engine that runs `throw null` and `throw 42` as JavaScript does answers the
first with status 400. -/
theorem failed_evaluation_responses_witness :
    throwingVm "throw null" = .throw .null ∧
      throwingVm "throw 42" = .throw (.number 42) ∧
      handleRequest throwingVm 0
          ⟨"POST", "/execute", some (.obj [("code", .str "throw null")])⟩ =
        some ⟨400, .message "Invalid JSON body"⟩ :=
  ⟨rfl, rfl, (failed_evaluation_responses throwingVm 0 rfl rfl).1⟩

/-- C7: the body `null` is valid JSON without a `code` member, and the runner answers it
with status 400 and `Invalid JSON body`, not with `Code is required and must be a
string`: the destructuring of line 115 throws before the guard.  Every other valid JSON
body without a non-empty string `code` gets the validation message, whatever the engine
does; a body that is not valid JSON gets `Invalid JSON body`. -/
theorem null_body_response (vm : String → Script) (elapsedNs : Nat) :
    handleRequest vm elapsedNs ⟨"POST", "/execute", some .null⟩ =
        some ⟨400, .message "Invalid JSON body"⟩ ∧
      handleRequest vm elapsedNs ⟨"POST", "/execute", none⟩ =
        some ⟨400, .message "Invalid JSON body"⟩ ∧
      ∀ parsed code, destructureCode parsed = .ok code → validCode code = none →
        handleRequest vm elapsedNs ⟨"POST", "/execute", some parsed⟩ =
          some ⟨400, .message "Code is required and must be a string"⟩ := by
  refine ⟨rfl, rfl, ?_⟩
  intro parsed code hd hv
  simp [handleRequest, handleExecute, hd, hv]

/-- C10, counterexample: the snippet consisting of the bare identifier `process`
evaluates without error; `error` is null and `result` is null. -/
theorem bare_process_succeeds :
    ∃ r, executeCode (identifierSnippet "process" (.throw (referenceError "process"))) 0 =
        .ok r ∧ r.error = .null ∧ r.result = none ∧ r.output = "" :=
  ⟨_, rfl, rfl, rfl, rfl⟩

/-- C10, amended: the sandbox binds every identifier of the deny-list to `undefined`.
A snippet consisting of such an identifier alone evaluates successfully, with `error`
null and `result` null; a snippet that reads a property of it fails, with `error` the
engine's `Cannot read properties of undefined (reading '<property>')`. -/
theorem denied_identifier_is_undefined (name : String) (unbound : Script) (elapsedNs : Nat)
    (h : name ∈ denyList) :
    sandboxGet name = some .undefined ∧
      executeCode (identifierSnippet name unbound) elapsedNs =
        .ok ⟨"", none, none, .null, roundTime elapsedNs⟩ ∧
      ∀ prop : String,
        ∃ r, executeCode (memberSnippet name prop unbound) elapsedNs = .ok r ∧
          r.error =
            .string ("Cannot read properties of undefined (reading '" ++ prop ++ "')") := by
  have hs := sandboxGet_denied h
  refine ⟨hs, ?_, ?_⟩
  · simp [executeCode, identifierSnippet, run, runFrom, hs, tryCatch, buildResult,
      standardHost, stringifyHanded, stringifyResult, JSValue.isDefined, Outcome.ofExcept,
      String.intercalate]
  · intro prop
    refine ⟨⟨"", none, some "null", _, roundTime elapsedNs⟩, ?_, rfl⟩
    simp [executeCode, memberSnippet, run, runFrom, hs, JSValue.getProp, tryCatch, catchBlock,
      JSValue.typeError, JSValue.error, List.lookup, JSValue.strictEqString, buildResult,
      standardHost, stringifyHanded, stringifyResult, JSValue.isDefined, JSValue.toJSString,
      Outcome.ofExcept, String.intercalate]

/-- The identifier `require` is on the deny-list, and the snippet `require` evaluates
without error. -/
theorem denied_identifier_is_undefined_witness :
    "require" ∈ denyList ∧
      executeCode (identifierSnippet "require" (.throw (referenceError "require"))) 0 =
        .ok ⟨"", none, none, .null, roundTime 0⟩ :=
  ⟨by decide,
    (denied_identifier_is_undefined "require" (.throw (referenceError "require")) 0
      (by decide)).2.1⟩

end Runner

namespace Api

variable {σ : Type}

theorem waitLoop_spec (probe : Nat → Bool) :
    ∀ remaining i : Nat,
      (∃ k, k < remaining ∧ probe (i + k) = true ∧ (∀ j, j < k → probe (i + j) = false) ∧
          waitLoop probe remaining i = (i + k + 1, .ok true)) ∨
        ((∀ j, j < remaining → probe (i + j) = false) ∧
          waitLoop probe remaining i = (i + remaining, .error "Container failed to become healthy")) := by
  intro remaining
  induction remaining with
  | zero =>
      intro i
      exact Or.inr ⟨fun j hj => absurd hj (Nat.not_lt_zero j), rfl⟩
  | succ n ih =>
      intro i
      by_cases hp : probe i = true
      · refine Or.inl ⟨0, Nat.succ_pos n, by simpa using hp,
          fun j hj => absurd hj (Nat.not_lt_zero j), ?_⟩
        simp [waitLoop, hp]
      · have hp2 : probe i = false := by simpa using hp
        rcases ih (i + 1) with ⟨k, hk, hpk, hfirst, hres⟩ | ⟨hall, hres⟩
        · refine Or.inl ⟨k + 1, Nat.succ_lt_succ hk, ?_, ?_, ?_⟩
          · rw [← hpk]; congr 1; omega
          · intro j hj
            cases j with
            | zero => simpa using hp2
            | succ j =>
                have := hfirst j (Nat.lt_of_succ_lt_succ hj)
                rw [← this]; congr 1; omega
          · simp only [waitLoop, hp2, Bool.false_eq_true, if_false, hres]
            congr 1
            omega
        · refine Or.inr ⟨?_, ?_⟩
          · intro j hj
            cases j with
            | zero => simpa using hp2
            | succ j =>
                have := hall j (Nat.lt_of_succ_lt_succ hj)
                rw [← this]; congr 1; omega
          · simp only [waitLoop, hp2, Bool.false_eq_true, if_false, hres]
            congr 1
            omega

/-- C9: `waitForHealthy(n)` performs at most `n` probes.  It stops at the first probe
that succeeds, after `k + 1` probes when that is probe `k < n`, and returns true; when
none of the first `n` probes succeeds it fails with `Container failed to become healthy`
after exactly `n` probes, so without any probe when `n = 0`. -/
theorem waitForHealthy_bounded (maxAttempts : Nat) (probe : Nat → Bool) :
    (waitForHealthy maxAttempts probe).1 ≤ maxAttempts ∧
      ((∃ k, k < maxAttempts ∧ probe k = true ∧ (∀ j, j < k → probe j = false) ∧
          waitForHealthy maxAttempts probe = (k + 1, .ok true)) ∨
        ((∀ j, j < maxAttempts → probe j = false) ∧
          waitForHealthy maxAttempts probe =
            (maxAttempts, .error "Container failed to become healthy"))) ∧
      waitForHealthy 0 probe = (0, .error "Container failed to become healthy") := by
  have h := waitLoop_spec probe maxAttempts 0
  simp only [Nat.zero_add] at h
  refine ⟨?_, ?_, rfl⟩
  · rcases h with ⟨k, hk, _, _, hres⟩ | ⟨_, hres⟩
    · simp only [waitForHealthy, hres]; omega
    · simp only [waitForHealthy, hres]; exact Nat.le_refl _
  · exact h

theorem containerExists_world (rt : Runtime σ) (w : World σ) :
    (containerExists rt w).2 = ⟨(rt.exec .psAll w.state).2, w.issued ++ [.psAll]⟩ := by
  simp only [containerExists, execCommand]
  split <;> simp_all

theorem isContainerRunning_world (rt : Runtime σ) (w : World σ) :
    (isContainerRunning rt w).2 = ⟨(rt.exec .psRunning w.state).2, w.issued ++ [.psRunning]⟩ := by
  simp only [isContainerRunning, execCommand]
  split <;> simp_all

theorem getContainerIP_world (rt : Runtime σ) (w : World σ) :
    (getContainerIP rt w).2 = ⟨(rt.exec .inspect w.state).2, w.issued ++ [.inspect]⟩ := by
  simp only [getContainerIP, execCommand]
  split <;> simp_all

theorem worldAfterQueries_issued (rt : Runtime σ) (w : World σ) :
    (worldAfterQueries rt w).issued = w.issued ++ [.psAll, .psRunning] := by
  simp [worldAfterQueries, isContainerRunning_world, containerExists_world]

theorem startNewContainer_issued (rt : Runtime σ) (m : DockerManager) (w : World σ) :
    ((startNewContainer rt m w).2.2.issued = w.issued ++ [.run] ∧
        ∃ err, (startNewContainer rt m w).1 = .error ("Failed to start container: " ++ err) ∧
          (startNewContainer rt m w).2.1 = m) ∨
      ((startNewContainer rt m w).2.2.issued = w.issued ++ [.run, .inspect] ∧
        (startNewContainer rt m w).1 = .ok () ∧
        (startNewContainer rt m w).2.1.containerRunning = true) := by
  simp only [startNewContainer, execCommand]
  cases h : (rt.exec .run w.state).1 with
  | error e => exact Or.inl ⟨by simp, e, by simp, by simp⟩
  | ok out => exact Or.inr ⟨by simp [getContainerIP_world], by simp, by simp⟩

theorem startContainer_adopt (rt : Runtime σ) (m : DockerManager) (w : World σ)
    (he : observedExists rt w = true) (hr : observedRunning rt w = true) :
    startContainer rt m w =
      (.ok (), ⟨true, (getContainerIP rt (worldAfterQueries rt w)).1⟩,
        (getContainerIP rt (worldAfterQueries rt w)).2) := by
  simp only [observedExists, observedRunning] at he hr
  simp [startContainer, he, hr, worldAfterQueries]

theorem startContainer_removal_fails (rt : Runtime σ) (m : DockerManager) (w : World σ)
    (he : observedExists rt w = true) (hr : observedRunning rt w = false) (err : String)
    (hrm : removal rt w = .error err) :
    startContainer rt m w = (.error err, m, (execCommand rt .rm (worldAfterQueries rt w)).2) := by
  simp only [observedExists, observedRunning] at he hr
  simp only [removal, worldAfterQueries] at hrm
  simp [startContainer, he, hr, worldAfterQueries, execCommand, hrm]

theorem startContainer_removal_ok (rt : Runtime σ) (m : DockerManager) (w : World σ)
    (he : observedExists rt w = true) (hr : observedRunning rt w = false) (out : String)
    (hrm : removal rt w = .ok out) :
    startContainer rt m w =
      startNewContainer rt m (execCommand rt .rm (worldAfterQueries rt w)).2 := by
  simp only [observedExists, observedRunning] at he hr
  simp only [removal, worldAfterQueries] at hrm
  simp [startContainer, he, hr, worldAfterQueries, execCommand, hrm]

theorem startContainer_absent (rt : Runtime σ) (m : DockerManager) (w : World σ)
    (he : observedExists rt w = false) :
    startContainer rt m w = startNewContainer rt m (containerExists rt w).2 := by
  simp only [observedExists] at he
  simp [startContainer, he]

theorem newCommands_of_issued (rt : Runtime σ) (m : DockerManager) (w : World σ)
    (cmds : List DockerCmd) (h : (startContainer rt m w).2.2.issued = w.issued ++ cmds) :
    newCommands rt m w = cmds := by
  simp [newCommands, h]

theorem startContainer_issued (rt : Runtime σ) (m : DockerManager) (w : World σ) :
    (startContainer rt m w).2.2.issued = w.issued ++ newCommands rt m w := by
  have key : ∃ cmds, (startContainer rt m w).2.2.issued = w.issued ++ cmds := by
    cases he : observedExists rt w with
    | false =>
        rw [startContainer_absent rt m w he]
        rcases startNewContainer_issued rt m (containerExists rt w).2 with ⟨hi, _⟩ | ⟨hi, _⟩ <;>
          exact ⟨_, by rw [hi]; simp [containerExists_world]; rfl⟩
    | true =>
        cases hr : observedRunning rt w with
        | true =>
            rw [startContainer_adopt rt m w he hr]
            exact ⟨_, by simp [getContainerIP_world, worldAfterQueries_issued]; rfl⟩
        | false =>
            cases hrm : removal rt w with
            | error err =>
                rw [startContainer_removal_fails rt m w he hr err hrm]
                exact ⟨_, by simp [execCommand, worldAfterQueries_issued]; rfl⟩
            | ok out =>
                rw [startContainer_removal_ok rt m w he hr out hrm]
                rcases startNewContainer_issued rt m
                    (execCommand rt .rm (worldAfterQueries rt w)).2 with ⟨hi, _⟩ | ⟨hi, _⟩ <;>
                  exact ⟨_, by rw [hi]; simp [execCommand, worldAfterQueries_issued]; rfl⟩
  obtain ⟨cmds, h⟩ := key
  rw [newCommands_of_issued rt m w cmds h, h]

theorem startContainer_cases (rt : Runtime σ) (m : DockerManager) (w : World σ) :
    (observedExists rt w = true → observedRunning rt w = true →
        newCommands rt m w = [.psAll, .psRunning, .inspect] ∧
          (startContainer rt m w).1 = .ok () ∧
          (startContainer rt m w).2.1 =
            ⟨true, (getContainerIP rt (worldAfterQueries rt w)).1⟩) ∧
      (observedExists rt w = true → observedRunning rt w = false →
        (∀ err, removal rt w = .error err →
            newCommands rt m w = [.psAll, .psRunning, .rm] ∧
              (startContainer rt m w).1 = .error err ∧ (startContainer rt m w).2.1 = m) ∧
          (∀ out, removal rt w = .ok out →
            newCommands rt m w = [.psAll, .psRunning, .rm, .run] ∨
              newCommands rt m w = [.psAll, .psRunning, .rm, .run, .inspect])) ∧
      (observedExists rt w = false →
        newCommands rt m w = [.psAll, .run] ∨ newCommands rt m w = [.psAll, .run, .inspect]) := by
  refine ⟨?_, ?_, ?_⟩
  · intro he hr
    have h := startContainer_adopt rt m w he hr
    refine ⟨newCommands_of_issued rt m w _ ?_, by rw [h], by rw [h]⟩
    rw [h]
    simp [getContainerIP_world, worldAfterQueries_issued]
  · intro he hr
    refine ⟨?_, ?_⟩
    · intro err hrm
      have h := startContainer_removal_fails rt m w he hr err hrm
      refine ⟨newCommands_of_issued rt m w _ ?_, by rw [h], by rw [h]⟩
      rw [h]
      simp [execCommand, worldAfterQueries_issued]
    · intro out hrm
      have h := startContainer_removal_ok rt m w he hr out hrm
      rcases startNewContainer_issued rt m (execCommand rt .rm (worldAfterQueries rt w)).2 with
        ⟨hi, _⟩ | ⟨hi, _⟩
      · refine Or.inl (newCommands_of_issued rt m w _ ?_)
        rw [h, hi]
        simp [execCommand, worldAfterQueries_issued]
      · refine Or.inr (newCommands_of_issued rt m w _ ?_)
        rw [h, hi]
        simp [execCommand, worldAfterQueries_issued]
  · intro he
    have h := startContainer_absent rt m w he
    rcases startNewContainer_issued rt m (containerExists rt w).2 with ⟨hi, _⟩ | ⟨hi, _⟩
    · refine Or.inl (newCommands_of_issued rt m w _ ?_)
      rw [h, hi]
      simp [containerExists_world]
    · refine Or.inr (newCommands_of_issued rt m w _ ?_)
      rw [h, hi]
      simp [containerExists_world]

theorem startContainer_stable (rt : Runtime σ) (m : DockerManager) (w : World σ)
    (hall : rt.exec .psAll w.state = (.ok CONTAINER_NAME, w.state))
    (hrun : rt.exec .psRunning w.state = (.ok CONTAINER_NAME, w.state))
    (hins : (rt.exec .inspect w.state).2 = w.state) :
    startContainer rt m w =
      (.ok (), ⟨true, inspectedAddress rt w.state⟩,
        ⟨w.state, w.issued ++ [.psAll, .psRunning, .inspect]⟩) := by
  have he : containerExists rt w = (true, ⟨w.state, w.issued ++ [.psAll]⟩) := by
    simp [containerExists, execCommand, hall]
  have hr : isContainerRunning rt ⟨w.state, w.issued ++ [.psAll]⟩ =
      (true, ⟨w.state, w.issued ++ [.psAll, .psRunning]⟩) := by
    simp [isContainerRunning, execCommand, hrun]
  have hi : getContainerIP rt ⟨w.state, w.issued ++ [.psAll, .psRunning]⟩ =
      (inspectedAddress rt w.state, ⟨w.state, w.issued ++ [.psAll, .psRunning, .inspect]⟩) := by
    simp only [getContainerIP, execCommand, inspectedAddress]
    cases h : (rt.exec .inspect w.state).1 <;> simp [hins]
  simp [startContainer, he, hr, hi]

/-- C8, counterexample: with a stopped container whose removal fails, `startContainer`
issues `docker rm` and then stops with the error; `docker run` is not issued. -/
theorem removal_failure_no_run :
    observedExists lockedRuntime ⟨.stopped, []⟩ = true ∧
      observedRunning lockedRuntime ⟨.stopped, []⟩ = false ∧
      newCommands lockedRuntime DockerManager.new ⟨.stopped, []⟩ = [.psAll, .psRunning, .rm] ∧
      DockerCmd.run ∉ newCommands lockedRuntime DockerManager.new ⟨.stopped, []⟩ ∧
      (startContainer lockedRuntime DockerManager.new ⟨.stopped, []⟩).1 =
        .error "Error response from daemon: removal is already in progress" := by
  refine ⟨by decide, by decide, by decide, by decide, rfl⟩

/-- C8, amended: the commands of `startContainer` are added to those issued before and
follow the two queries.  Container
found and running: only `docker inspect` follows, the call succeeds with `containerHost`
the inspected address and `containerRunning` true.  Found and not running: `docker rm`
follows, then `docker run` when the removal succeeded, while a failed removal ends the
call with that error and the fields unchanged.  Not found: `docker run` follows and no
`docker rm`.  While the runtime answers that the container is running and its state
does not change, two calls in sequence both issue the two queries and `docker inspect`
only, succeed, and leave the same `containerHost`. -/
theorem startContainer_commands (rt : Runtime σ) (m : DockerManager) (w : World σ) :
    (startContainer rt m w).2.2.issued = w.issued ++ newCommands rt m w ∧
      (observedExists rt w = true → observedRunning rt w = true →
        newCommands rt m w = [.psAll, .psRunning, .inspect] ∧
          (startContainer rt m w).1 = .ok () ∧
          (startContainer rt m w).2.1 =
            ⟨true, (getContainerIP rt (worldAfterQueries rt w)).1⟩) ∧
      (observedExists rt w = true → observedRunning rt w = false →
        (∀ err, removal rt w = .error err →
            newCommands rt m w = [.psAll, .psRunning, .rm] ∧
              (startContainer rt m w).1 = .error err ∧ (startContainer rt m w).2.1 = m) ∧
          (∀ out, removal rt w = .ok out →
            newCommands rt m w = [.psAll, .psRunning, .rm, .run] ∨
              newCommands rt m w = [.psAll, .psRunning, .rm, .run, .inspect])) ∧
      (observedExists rt w = false →
        newCommands rt m w = [.psAll, .run] ∨ newCommands rt m w = [.psAll, .run, .inspect]) ∧
      (rt.exec .psAll w.state = (.ok CONTAINER_NAME, w.state) →
        rt.exec .psRunning w.state = (.ok CONTAINER_NAME, w.state) →
        (rt.exec .inspect w.state).2 = w.state →
          newCommands rt m w = [.psAll, .psRunning, .inspect] ∧
            newCommands rt (startContainer rt m w).2.1 (startContainer rt m w).2.2 =
              [.psAll, .psRunning, .inspect] ∧
            (startContainer rt m w).1 = .ok () ∧
            (startContainer rt (startContainer rt m w).2.1 (startContainer rt m w).2.2).1 =
              .ok () ∧
            (startContainer rt (startContainer rt m w).2.1
                (startContainer rt m w).2.2).2.1.containerHost =
              (startContainer rt m w).2.1.containerHost ∧
            (startContainer rt m w).2.1.containerHost = inspectedAddress rt w.state) := by
  obtain ⟨h1, h2, h3⟩ := startContainer_cases rt m w
  refine ⟨startContainer_issued rt m w, h1, h2, h3, ?_⟩
  intro hall hrun hins
  have e1 := startContainer_stable rt m w hall hrun hins
  have e2 := startContainer_stable rt (startContainer rt m w).2.1 (startContainer rt m w).2.2
    (by rw [e1]; exact hall) (by rw [e1]; exact hrun) (by rw [e1]; exact hins)
  refine ⟨newCommands_of_issued rt m w _ (by rw [e1]), ?_, by rw [e1], by rw [e2], ?_,
    by rw [e1]⟩
  · exact newCommands_of_issued rt _ _ _ (by rw [e2])
  · rw [e2]
    rw [e1]

/-- With the sample runtime and a running container, two calls of `startContainer`
adopt the container at `172.17.0.2` and issue neither `docker rm` nor `docker run`; with
a stopped container one call issues `docker rm` and then `docker run`. -/
theorem startContainer_commands_witness :
    observedExists dockerRuntime ⟨.running, []⟩ = true ∧
      observedRunning dockerRuntime ⟨.running, []⟩ = true ∧
      newCommands dockerRuntime DockerManager.new ⟨.running, []⟩ =
        [.psAll, .psRunning, .inspect] ∧
      (startContainer dockerRuntime DockerManager.new ⟨.running, []⟩).2.1 =
        ⟨true, some "172.17.0.2"⟩ ∧
      newCommands dockerRuntime DockerManager.new ⟨.stopped, []⟩ =
        [.psAll, .psRunning, .rm, .run, .inspect] :=
  ⟨by decide, by decide,
    ((startContainer_commands dockerRuntime DockerManager.new ⟨.running, []⟩).2.1
      (by decide) (by decide)).1,
    by decide, by decide⟩

end Api
